import Mathlib

/-!
Verification development for the Access-Aide plugin (`plugin.py`).

The plugin streams tokenizer events (text or tag events produced by Sigil's
quickparser) over the OPF metadata, the nav / ncx documents and every xhtml
content document, and re-emits them with accessibility annotations.  The
shallow embedding below models:

  * Python ordered dicts for tag attributes as association lists
    (insertion-ordered, first occurrence of a key is the binding);
  * the tokenizer event stream as a list of `Event` values, each carrying the
    ancestor-chain string (`pfx`, called `tagprefix` in the source);
  * Python string primitives (`strip`, `replace`, `in`, `" ".join`,
    `re.split`-on-whitespace) as executable functions on `List Char`
    (ASCII whitespace model);
  * the functions `parse_attribute`, `_role_from_etype`, `xmlencode`,
    `xmldecode`, `parse_nav`, `parse_ncx`, `convert_xhtml`, `update_alt_text`
    and the OPF-metadata portion of `run` as state-passing recursions over
    the event list.

Host-provided services that the source consumes (`urlparse`/`unquote`/
`os.path.basename`/`bk.build_bookpath` composed into an href -> bookpath
resolution, and the fragment extraction of a URL) are passed in as function
parameters, exactly at the call sites where the source invokes them.
Re-serialisation (`qp.tag_info_to_xml`) followed by re-parsing is the
tokenizer's own round-trip contract, so a pass's output is modelled directly
as the event list a re-parse of its serialised output yields.
-/

/-- Tag event kinds produced by the quickparser (`tagtype` in the source):
"begin", "end", "single" (self-closing) and "xmlheader". -/
inductive TagType where
  | tbegin : TagType
  | tend : TagType
  | tsingle : TagType
  | txmlheader : TagType
deriving DecidableEq, Repr

/-- Tag attributes: a Python dict in insertion order.  The first pair whose
key matches is the binding. -/
abbrev Attrs := List (String × String)

/-- Dict lookup (`d.get(k)` / `d[k]`): value at the first matching key. -/
def lookupT {α : Type} : List (String × α) → String → Option α
  | [], _ => none
  | (k, v) :: rest, key => if k == key then some v else lookupT rest key

/-- Dict update (`d[k] = v`): replace the value at the first matching key in
place, or append a new binding at the end, as Python dicts do. -/
def setT {α : Type} : List (String × α) → String → α → List (String × α)
  | [], key, v => [(key, v)]
  | (k, w) :: rest, key, v =>
    if k == key then (k, v) :: rest else (k, w) :: setT rest key v

/-- Dict membership (`k in d`). -/
def hasT {α : Type} (m : List (String × α)) (k : String) : Bool :=
  (lookupT m k).isSome

/-- Dict lookup with a default (`d.get(k, dflt)`). -/
def getAD (m : Attrs) (k dflt : String) : String :=
  (lookupT m k).getD dflt

/-- The six ASCII whitespace characters that Python's `str.strip()` removes
(the source also passes exactly this set, ' \v\t\n\r\f', when trimming
attribute names).  Unicode whitespace is outside this model. -/
def isPyWs (c : Char) : Bool :=
  c == ' ' || c == '\t' || c == '\n' || c == '\r' || c == '\x0b' || c == '\x0c'

/-- Drop leading characters satisfying `isPyWs`. -/
def stripL : List Char → List Char
  | [] => []
  | c :: cs => if isPyWs c then stripL cs else c :: cs

/-- Python `str.strip()` (ASCII whitespace model): trim both ends. -/
def pyStrip (s : String) : String :=
  ((stripL ((stripL s.toList).reverse)).reverse).asString

/-- Python substring containment `needle in hay` on `List Char`. -/
def infixB : List Char → List Char → Bool
  | p, [] => p.isEmpty
  | p, c :: t => p.isPrefixOf (c :: t) || infixB p t

/-- Python substring containment `needle in hay` on strings. -/
def subStrB (needle hay : String) : Bool :=
  infixB needle.toList hay.toList

/-- Python `s.endswith(t)`. -/
def endsWithB (s t : String) : Bool :=
  t.toList.isSuffixOf s.toList

/-- Python `s.startswith(t)`. -/
def startsWithB (s t : String) : Bool :=
  t.toList.isPrefixOf s.toList

/-- `re.split("\\s+", val)` on an already stripped value: cut at maximal
whitespace runs, collecting the non-empty tokens (`acc` holds the current
token reversed). -/
def wsSplit (acc : List Char) : List Char → List String
  | [] => if acc.isEmpty then [] else [acc.reverse.asString]
  | c :: cs =>
    if isPyWs c then
      if acc.isEmpty then wsSplit [] cs
      else acc.reverse.asString :: wsSplit [] cs
    else wsSplit (c :: acc) cs

/-- `parse_attribute` (plugin.py:263): split a possibly space-delimited
multi-valued attribute.  Note the source splits on the regex `\s+` only when
a plain space occurs in the stripped value; otherwise the whole stripped
value is the single token. -/
def parse_attribute (avalue : Option String) : List String :=
  match avalue with
  | none => []
  | some a =>
    let val := pyStrip a
    if val.toList.contains ' ' then wsSplit [] val.toList
    else if val != "" then [val] else []

/-- Python `" ".join(l)`. -/
def spaceJoin : List String → String
  | [] => ""
  | [x] => x
  | x :: y :: rest => x ++ " " ++ spaceJoin (y :: rest)

/-- `_epubtype_aria_map` (plugin.py:57): semantic type to ARIA role. -/
def _epubtype_aria_map : List (String × String) := [
  ("abstract", "doc-abstract"),
  ("acknowledgments", "doc-acknowledgments"),
  ("afterword", "doc-afterword"),
  ("appendix", "doc-appendix"),
  ("biblioentry", "doc-biblioentry"),
  ("bibliography", "doc-bibliography"),
  ("biblioref", "doc-biblioref"),
  ("chapter", "doc-chapter"),
  ("colophon", "doc-colophon"),
  ("conclusion", "doc-conclusion"),
  ("cover-image", "doc-cover"),
  ("credit", "doc-credit"),
  ("credits", "doc-credits"),
  ("dedication", "doc-dedication"),
  ("endnote", "doc-endnote"),
  ("endnotes", "doc-endnotes"),
  ("epigraph", "doc-epigraph"),
  ("epilogue", "doc-epilogue"),
  ("errata", "doc-errata"),
  ("figure", "figure"),
  ("footnote", "doc-footnote"),
  ("foreword", "doc-foreword"),
  ("glossary", "doc-glossary"),
  ("glossdef", "definition"),
  ("glossref", "doc-glossref"),
  ("glossterm", "term"),
  ("index", "doc-index"),
  ("introduction", "doc-introduction"),
  ("landmarks", "directory"),
  ("list", "list"),
  ("list-item", "listitem"),
  ("noteref", "doc-noteref"),
  ("notice", "doc-notice"),
  ("page-list", "doc-pagelist"),
  ("pagebreak", "doc-pagebreak"),
  ("part", "doc-part"),
  ("preface", "doc-preface"),
  ("prologue", "doc-prologue"),
  ("pullquote", "doc-pullquote"),
  ("qna", "doc-qna"),
  ("referrer", "doc-backlink"),
  ("subtitle", "doc-subtitle"),
  ("table", "table"),
  ("table-row", "row"),
  ("table-cell", "cell"),
  ("tip", "doc-tip"),
  ("toc", "doc-toc")]

/-- A value of the Python dict `_aria_role_allowed_tags`.  In the source a
one-element entry such as `("section")` is NOT a tuple but the plain string
"section" (the comma is missing), while `()` and `("aside","footer","header")`
are genuine tuples; the distinction matters because Python's `in` is a
substring test on a string and a membership test on a tuple. -/
inductive PyTagSet where
  | pstr : String → PyTagSet
  | ptup : List String → PyTagSet
deriving DecidableEq, Repr

/-- Python `tname in tagset` for a `PyTagSet` value. -/
def pyIn (tname : String) : PyTagSet → Bool
  | .pstr s => subStrB tname s
  | .ptup l => l.contains tname

/-- `_aria_role_allowed_tags` (plugin.py:107): role to the tags it is allowed
on beyond the general allowance.  Parenthesised one-element entries are
strings in the source (missing tuple comma), transcribed as `pstr`. -/
def _aria_role_allowed_tags : List (String × PyTagSet) := [
  ("doc-abstract", .pstr "section"),
  ("doc-acknowledgments", .pstr "section"),
  ("doc-afterword", .pstr "section"),
  ("doc-appendix", .pstr "section"),
  ("doc-biblioentry", .pstr "li"),
  ("doc-bibliography", .pstr "section"),
  ("doc-biblioref", .pstr "a"),
  ("doc-chapter", .pstr "section"),
  ("doc-colophon", .pstr "section"),
  ("doc-conclusion", .pstr "section"),
  ("doc-cover", .pstr "img"),
  ("doc-credit", .pstr "section"),
  ("doc-credits", .pstr "section"),
  ("doc-dedication", .pstr "section"),
  ("doc-endnote", .pstr "li"),
  ("doc-endnotes", .pstr "section"),
  ("doc-epigraph", .ptup []),
  ("doc-epilogue", .pstr "section"),
  ("doc-errata", .pstr "section"),
  ("figure", .ptup []),
  ("doc-footnote", .ptup ["aside", "footer", "header"]),
  ("doc-foreword", .pstr "section"),
  ("doc-glossary", .pstr "section"),
  ("definition", .ptup []),
  ("doc-glossref", .pstr "a"),
  ("term", .ptup []),
  ("doc-index", .ptup ["nav", "section"]),
  ("doc-introduction", .pstr "section"),
  ("directory", .ptup ["ol", "ul"]),
  ("list", .ptup []),
  ("listitem", .ptup []),
  ("doc-noteref", .pstr "a"),
  ("doc-notice", .pstr "section"),
  ("doc-pagelist", .ptup ["nav", "section"]),
  ("doc-pagebreak", .pstr "hr"),
  ("doc-part", .pstr "section"),
  ("doc-preface", .pstr "section"),
  ("doc-prologue", .pstr "section"),
  ("doc-pullquote", .ptup ["aside", "section"]),
  ("doc-qna", .pstr "section"),
  ("doc-backlink", .pstr "a"),
  ("doc-subtitle", .ptup ["h1", "h2", "h3", "h4", "h5", "h6"]),
  ("table", .ptup []),
  ("cell", .ptup []),
  ("row", .ptup []),
  ("doc-tip", .pstr "aside"),
  ("doc-toc", .ptup ["nav", "section"])]

/-- `_all_role_tags` (plugin.py:160): tags allowing all roles subject to the
conditions `(href_allowed, need_alt)`. -/
def _all_role_tags : List (String × (Bool × Bool)) := [
  ("a", (false, false)),
  ("abbr", (true, false)),
  ("address", (true, false)),
  ("b", (true, false)),
  ("bdi", (true, false)),
  ("bdo", (true, false)),
  ("blockquote", (true, false)),
  ("br", (true, false)),
  ("canvas", (true, false)),
  ("cite", (true, false)),
  ("code", (true, false)),
  ("del", (true, false)),
  ("dfn", (true, false)),
  ("div", (true, false)),
  ("em", (true, false)),
  ("i", (true, false)),
  ("img", (false, true)),
  ("ins", (true, false)),
  ("kbd", (true, false)),
  ("mark", (true, false)),
  ("output", (true, false)),
  ("p", (true, false)),
  ("pre", (true, false)),
  ("q", (true, false)),
  ("rp", (true, false)),
  ("rt", (true, false)),
  ("ruby", (true, false)),
  ("s", (true, false)),
  ("samp", (true, false)),
  ("small", (true, false)),
  ("span", (true, false)),
  ("strong", (true, false)),
  ("sub", (true, false)),
  ("sup", (true, false)),
  ("table", (true, false)),
  ("tbody", (true, false)),
  ("td", (true, false)),
  ("tfoot", (true, false)),
  ("thead", (true, false)),
  ("th", (true, false)),
  ("tr", (true, false)),
  ("time", (true, false)),
  ("u", (true, false)),
  ("var", (true, false)),
  ("wbr", (true, false))]

/-- `_role_from_etype` (plugin.py:209): map a semantic type on a host tag to
an ARIA role or `none`.  The specific-allowance membership test uses `pyIn`,
i.e. Python `in`, which is a substring test on the string-valued entries of
`_aria_role_allowed_tags`. -/
def _role_from_etype (etype tname : String) (has_href has_alt : Bool) :
    Option String :=
  match lookupT _epubtype_aria_map etype with
  | none => none
  | some role =>
    let allowed :=
      match lookupT _all_role_tags tname with
      | none => false
      | some (href_allowed, need_alt) =>
        let a := true
        let a := if !href_allowed && has_href then false else a
        let a := if need_alt && !has_alt then false else a
        a
    if allowed then some role
    else
      match lookupT _aria_role_allowed_tags role with
      | some tagset => if pyIn tname tagset then some role else none
      | none => none

/-- Modelled from the spec (4.4 Role Inference Engine), for comparison with
`_role_from_etype`: the specific allowance requires the allowed-tag SET of
the role to contain `hostTag` as a member (a one-element set `section`
contains exactly the string "section"). -/
def inferRoleSpec (etype tname : String) (has_href has_alt : Bool) :
    Option String :=
  match lookupT _epubtype_aria_map etype with
  | none => none
  | some role =>
    let general :=
      match lookupT _all_role_tags tname with
      | none => false
      | some (href_allowed, need_alt) =>
        (href_allowed || !has_href) && (!need_alt || has_alt)
    let specific :=
      match lookupT _aria_role_allowed_tags role with
      | some (.pstr s) => tname == s
      | some (.ptup l) => l.contains tname
      | none => false
    if general || specific then some role else none

/-- One left-to-right pass of Python `str.replace(pat, rep)` on `List Char`:
at each position, if `pat` matches, emit `rep` and resume after the matched
occurrence (non-overlapping); otherwise copy one character.  `fuel` bounds
the recursion; every call site supplies `fuel = s.length`, which suffices
because each step consumes at least one character (`pat` is never empty in
this development). -/
def replaceFuel (pat rep : List Char) : Nat → List Char → List Char
  | 0, s => s
  | _ + 1, [] => []
  | fuel + 1, c :: cs =>
    if pat.isPrefixOf (c :: cs) then
      rep ++ replaceFuel pat rep fuel ((c :: cs).drop pat.length)
    else c :: replaceFuel pat rep fuel cs

/-- Python `s.replace(pat, rep)` on strings. -/
def pyReplace (s pat rep : String) : String :=
  (replaceFuel pat.toList rep.toList s.toList.length s.toList).asString

/-- `xmlencode` (plugin.py:239): encode reserved characters, the ampersand
first. -/
def xmlencode (data : Option String) : String :=
  match data with
  | none => ""
  | some data =>
    let newdata := data
    let newdata := pyReplace newdata "&" "&amp;"
    let newdata := pyReplace newdata "<" "&lt;"
    let newdata := pyReplace newdata ">" "&gt;"
    let newdata := pyReplace newdata "\"" "&quot;"
    newdata

/-- `xmldecode` (plugin.py:250): the inverse replacements in reverse order,
the ampersand last. -/
def xmldecode (data : Option String) : String :=
  match data with
  | none => ""
  | some data =>
    let newdata := data
    let newdata := pyReplace newdata "&quot;" "\""
    let newdata := pyReplace newdata "&gt;" ">"
    let newdata := pyReplace newdata "&lt;" "<"
    let newdata := pyReplace newdata "&amp;" "&"
    newdata

/-- One event of the quickparser stream: either a text node with its dotted
ancestor-chain string, or a tag with name, kind, attributes and
ancestor-chain string (`tagprefix` in the source; `None` attributes are
modelled as the empty list, which the source treats identically in every
containment and truthiness test it performs). -/
inductive Event where
  | textE : String → String → Event
  | tagE : String → TagType → Attrs → String → Event
deriving DecidableEq, Repr

/-- State threaded by `parse_nav` (plugin.py:503). -/
structure NavState where
  in_toc : Bool
  in_lms : Bool
  getlabel : Bool
  navtitle : Option String
  tochref : Option String
  prevbookpath : String
  titlemap : List (String × String)
  etypemap : List (String × (String × String × String))
deriving DecidableEq, Repr

/-- Initial `parse_nav` state. -/
def navInit : NavState :=
  ⟨false, false, false, none, none, "", [], []⟩

/-- One event of `parse_nav`'s loop (plugin.py:518-562).  `resolve` is the
host's href -> bookpath resolution (urlparse + unquote + basename +
build_bookpath against the nav's starting directory) and `fragOf` the
fragment component of an href, both consumed exactly where the source calls
them. -/
def parse_nav_step (resolve fragOf : String → String) (navbookpath : String)
    (st : NavState) (ev : Event) : NavState :=
  match ev with
  | .tagE tagname tagtype tagattr _ =>
    let st :=
      if tagname == "nav" && tagtype == TagType.tbegin then
        match lookupT tagattr "epub:type" with
        | some et => { st with in_toc := et == "toc", in_lms := et == "landmarks" }
        | none => st
      else st
    let st :=
      if st.in_toc && tagname == "a" && tagtype == TagType.tbegin then
        match lookupT tagattr "href" with
        | some h => { st with tochref := some h, getlabel := true }
        | none => st
      else st
    let st :=
      if st.in_lms && tagname == "a" && tagtype == TagType.tbegin then
        match lookupT tagattr "href" with
        | some lmhref =>
          match lookupT tagattr "epub:type" with
          | some etype =>
            let bookpath := resolve lmhref
            let fragment := fragOf lmhref
            if fragment != "" then
              { st with etypemap := setT st.etypemap bookpath ("id", fragment, etype) }
            else st
          | none => st
        | none => st
      else st
    st
  | .textE text tagpfx =>
    let st :=
      if st.navtitle.isNone && endsWithB tagpfx "h1" then
        { st with navtitle := some text,
                  titlemap := setT st.titlemap navbookpath text }
      else st
    if st.in_toc && st.getlabel then
      match st.tochref with
      | some tochref =>
        let bookpath := resolve tochref
        let st :=
          if bookpath != st.prevbookpath then
            { st with titlemap := setT st.titlemap bookpath text }
          else st
        { st with prevbookpath := bookpath, tochref := none, getlabel := false }
      | none => { st with tochref := none, getlabel := false }
    else st

/-- Run `parse_nav`'s loop over the whole event stream. -/
def navRun (resolve fragOf : String → String) (navbookpath : String)
    (st : NavState) : List Event → NavState
  | [] => st
  | ev :: rest =>
    navRun resolve fragOf navbookpath (parse_nav_step resolve fragOf navbookpath st ev) rest

/-- `parse_nav` (plugin.py:503): returns the title map and the landmark
(epub:type) map harvested from the nav document's events. -/
def parse_nav (resolve fragOf : String → String) (navbookpath : String)
    (events : List Event) :
    List (String × String) × List (String × (String × String × String)) :=
  let st := navRun resolve fragOf navbookpath navInit events
  (st.titlemap, st.etypemap)

/-- State threaded by `parse_ncx` (plugin.py:568).  The source initialises a
misspelt variable (`navlable`), so `navlabel` is first defined only by an
assignment inside the loop; `none` models its cleared value, and the
titlemap stores `Option String` because a cleared (None) label can be
recorded. -/
structure NcxState where
  navlabel : Option String
  prevbookpath : String
  titlemap : List (String × Option String)
deriving DecidableEq, Repr

/-- One event of `parse_ncx`'s loop (plugin.py:579-595). -/
def parse_ncx_step (resolve : String → String) (st : NcxState) (ev : Event) :
    NcxState :=
  match ev with
  | .textE txt tp =>
    if endsWithB tp ".navpoint.navlabel.text" then
      { st with navlabel := some (pyStrip txt) }
    else st
  | .tagE tname _ tattr tp =>
    if tname == "content" && hasT tattr "src" && endsWithB tp "navpoint" then
      let href := getAD tattr "src" ""
      let bookpath := resolve href
      let st :=
        if bookpath != st.prevbookpath then
          { st with titlemap := setT st.titlemap bookpath st.navlabel }
        else st
      { st with prevbookpath := bookpath, navlabel := none }
    else st

/-- Run `parse_ncx`'s loop over the whole event stream. -/
def ncxRun (resolve : String → String) (st : NcxState) : List Event → NcxState
  | [] => st
  | ev :: rest => ncxRun resolve (parse_ncx_step resolve st ev) rest

/-- `parse_ncx` (plugin.py:568): title map from the legacy toc.ncx. -/
def parse_ncx (resolve : String → String) (events : List Event) :
    List (String × Option String) :=
  (ncxRun resolve ⟨none, "", []⟩ events).titlemap

/-- An entry appended to `res` while rewriting the OPF metadata
(plugin.py:303-343): a re-emitted text node, a literal injected metadata
line, or a re-serialised tag. -/
inductive MetaItem where
  | mtext : String → MetaItem
  | mraw : String → MetaItem
  | mtag : String → TagType → Attrs → MetaItem
deriving DecidableEq, Repr

/-- State threaded by the OPF metadata loop of `run` (plugin.py:302-342). -/
structure MetaState where
  plang : Option String
  has_access_meta : Bool
deriving DecidableEq, Repr

/-- The six epub3 metadata lines injected verbatim (plugin.py:330-335). -/
def accessMetaE3 : List MetaItem := [
  .mraw "<meta property=\"schema:accessibilitySummary\">This publication conforms to WCAG 2.0 AA.</meta>\n",
  .mraw "<meta property=\"schema:accessMode\">textual</meta>\n",
  .mraw "<meta property=\"schema:accessMode\">visual</meta>\n",
  .mraw "<meta property=\"schema:accessModeSufficient\">textual</meta>\n",
  .mraw "<meta property=\"schema:accessibilityFeature\">structuralNavigation</meta>\n",
  .mraw "<meta property=\"schema:accessibilityHazard\">none</meta>\n"]

/-- The five epub2 metadata lines injected verbatim (plugin.py:337-341). -/
def accessMetaE2 : List MetaItem := [
  .mraw "<meta name=\"schema:accessibilitySummary\" content=\"This publication conforms to WCAG 2.0 AA.\"/>\n",
  .mraw "<meta name=\"schema:accessMode\" content=\"textual\"/>\n",
  .mraw "<meta name=\"schema:accessModeSufficient\" content=\"textual\"/>\n",
  .mraw "<meta name=\"schema:accessibilityFeature\" content=\"structuralNavigation\"/>\n",
  .mraw "<meta name=\"schema:accessibilityHazard\" content=\"none\"/>\n"]

/-- The OPF metadata loop of `run` (plugin.py:308-342): re-emit every event,
note the first dc:language text as the primary language, detect existing
schema:access* declarations, and inject the fixed block at the metadata end
tag when none were found. -/
def meta_go (E3 : Bool) (st : MetaState) : List Event → List MetaItem × MetaState
  | [] => ([], st)
  | .textE text tagpfx :: rest =>
    let st :=
      if endsWithB tagpfx "dc:language" && st.plang.isNone then
        { st with plang := some text }
      else st
    let r := meta_go E3 st rest
    (.mtext text :: r.1, r.2)
  | .tagE tagname tagtype tagattr _ :: rest =>
    let st :=
      if tagname == "meta" && tagtype == TagType.tbegin then
        let st :=
          match lookupT tagattr "property" with
          | some prop =>
            if startsWithB prop "schema:access" then { st with has_access_meta := true }
            else st
          | none => st
        match lookupT tagattr "name" with
        | some nm =>
          if startsWithB nm "schema:access" then { st with has_access_meta := true }
          else st
        | none => st
      else st
    let injected :=
      if tagname == "metadata" && tagtype == TagType.tend then
        if E3 && !st.has_access_meta then accessMetaE3
        else if !E3 && !st.has_access_meta then accessMetaE2
        else []
      else []
    let r := meta_go E3 st rest
    (injected ++ (.mtag tagname tagtype tagattr :: r.1), r.2)

/-- An observable action of the orchestrator's OPF stage: writing the
rewritten metadata back (`bk.setmetadataxml`) or returning an error code. -/
inductive RunEv where
  | persistMeta : List MetaItem → RunEv
  | abort : Int → RunEv
deriving DecidableEq, Repr

/-- The OPF stage of `run` (plugin.py:302-348) as its trace of observable
actions, in execution order: the loop finishes, `bk.setmetadataxml` is
called unconditionally (line 344), and only then is the primary language
checked, returning -1 if none was found (lines 346-348). -/
def opf_stage (E3 : Bool) (events : List Event) : List RunEv :=
  let r := meta_go E3 ⟨none, false⟩ events
  RunEv.persistMeta r.1 ::
    (if r.2.plang.isNone then [RunEv.abort (-1)] else [])

/-- Attribute-name trim workaround (plugin.py:620-627): rebuild the dict with
each attribute name stripped of ' \v\t\n\r\f'; skipped (a no-op) when the
attributes are empty, as `if tattr:` does. -/
def stripAttrNames (tattr : Attrs) : Attrs :=
  if tattr.isEmpty then tattr
  else tattr.foldl (fun nattr kv => setT nattr (pyStrip kv.1) kv.2) []

/-- Landmark epub:type injection for fragment-qualified landmarks
(plugin.py:636-644): when the tag carries `id` equal to the landmark
fragment, append the landmark's semantic type to the (possibly multi-valued)
epub:type attribute unless already present. -/
def lmInject (E3 : Bool) (loctype fragment etype : String) (ttype : TagType)
    (tattr : Attrs) : Attrs :=
  if E3 && loctype == "id" &&
      (ttype == TagType.tsingle || ttype == TagType.tbegin) then
    match lookupT tattr "id" with
    | some idv =>
      if idv == fragment then
        let vals := parse_attribute (some (getAD tattr "epub:type" ""))
        if !(vals.contains etype) then
          setT tattr "epub:type" (spaceJoin (vals ++ [etype]))
        else tattr
      else tattr
    | none => tattr
  else tattr

/-- Primary-language injection (plugin.py:657-659): on the html begin tag,
set both `lang` and `xml:lang` unconditionally. -/
def langInject (plang tname : String) (ttype : TagType) (tattr : Attrs) : Attrs :=
  if tname == "html" && ttype == TagType.tbegin then
    setT (setT tattr "lang" plang) "xml:lang" plang
  else tattr

/-- ARIA role augmentation (plugin.py:673-687): for each epub:type value,
query `_role_from_etype` with the tag name and href/alt presence and append
each non-null result to the role value list unless already present; the
(possibly unchanged) list is re-joined into the role attribute whenever it
is non-empty. -/
def roleAug (E3 : Bool) (tname : String) (ttype : TagType) (tattr : Attrs) :
    Attrs :=
  if E3 && (ttype == TagType.tbegin || ttype == TagType.tsingle) &&
      hasT tattr "epub:type" then
    let evals := parse_attribute (some (getAD tattr "epub:type" ""))
    let rvals := parse_attribute (some (getAD tattr "role" ""))
    let has_href := hasT tattr "href"
    let has_alt := hasT tattr "alt"
    let rvals := evals.foldl (fun rv ept =>
      match _role_from_etype ept tname has_href has_alt with
      | some ariarole => if !(rv.contains ariarole) then rv ++ [ariarole] else rv
      | none => rv) rvals
    if rvals.length > 0 then setT tattr "role" (spaceJoin rvals) else tattr
  else tattr

/-- Quickparser serialisation workaround for launchers before 20210203
(plugin.py:702-706): strip the xmlheader's `special` attribute. -/
def xmlheaderFix (legacyFix : Bool) (ttype : TagType) (tattr : Attrs) : Attrs :=
  if legacyFix && ttype == TagType.txmlheader && !tattr.isEmpty &&
      hasT tattr "special" then
    setT tattr "special" (pyStrip (getAD tattr "special" ""))
  else tattr

/-- Append a text string to the output stream: the source appends raw
strings to `res` and joins them at the end, so an empty string contributes
nothing to the serialised document and hence no event on re-parse. -/
def pushText (txt pfxOut : String) : List Event :=
  if txt == "" then [] else [Event.textE txt pfxOut]

/-- The `titlemap.get(bookpath, "")` lookup used by the title injections. -/
def titleD (titlemap : List (String × String)) (bookpath : String) : String :=
  (lookupT titlemap bookpath).getD ""

/-- An image record of `convert_xhtml`:
`(manifest_id, bookpath, image_count, image_src, alt_text)`. -/
abbrev ImgRec := String × String × Nat × String × String

/-- The per-event loop of `convert_xhtml` (plugin.py:619-708), threading the
current head-title text (`maintitle`) and the per-document image counter,
and returning the re-emitted event stream plus the image record list. -/
def conv_go (mid bookpath plang : String) (titlemap : List (String × String))
    (loctype fragment etype : String) (E3 legacyFix : Bool)
    (maintitle : Option String) (imgcnt : Nat) :
    List Event → List Event × List ImgRec
  | [] => ([], [])
  | .textE text tpfx :: rest =>
    let maintitle :=
      if subStrB "head" tpfx && endsWithB tpfx "title" && pyStrip text != "" then
        some text
      else maintitle
    let r :=
      conv_go mid bookpath plang titlemap loctype fragment etype E3 legacyFix
        maintitle imgcnt rest
    (pushText text tpfx ++ r.1, r.2)
  | .tagE tname ttype tattr0 tpfx :: rest =>
    let tattr := stripAttrNames tattr0
    let tattr := lmInject E3 loctype fragment etype ttype tattr
    let tattr := langInject plang tname ttype tattr
    let isimg :=
      tname == "img" && (ttype == TagType.tsingle || ttype == TagType.tbegin)
    let alttext := getAD tattr "alt" ""
    let tattr := if isimg then setT tattr "alt" alttext else tattr
    let imgsrc := getAD tattr "src" ""
    let imgcnt2 := if isimg then imgcnt + 1 else imgcnt
    let recs : List ImgRec :=
      if isimg then [(mid, bookpath, imgcnt2, imgsrc, alttext)] else []
    let tattr := roleAug E3 tname ttype tattr
    let pre :=
      if tname == "title" && ttype == TagType.tend && subStrB "head" tpfx &&
          maintitle.isNone then
        pushText (titleD titlemap bookpath) (tpfx ++ ".title")
      else []
    let emitted :=
      if tname == "title" && ttype == TagType.tsingle && subStrB "head" tpfx then
        Event.tagE tname TagType.tbegin tattr tpfx ::
          (pushText (titleD titlemap bookpath) (tpfx ++ ".title") ++
            [Event.tagE tname TagType.tend [] tpfx])
      else
        [Event.tagE tname ttype (xmlheaderFix legacyFix ttype tattr) tpfx]
    let r :=
      conv_go mid bookpath plang titlemap loctype fragment etype E3 legacyFix
        maintitle imgcnt2 rest
    (pre ++ emitted ++ r.1, recs ++ r.2)

/-- `convert_xhtml` (plugin.py:606): resolve this document's landmark entry
(default `("", "", "")`) and run the rewriting loop with no title text seen
and image counter 0. -/
def convert_xhtml (mid bookpath plang : String)
    (titlemap : List (String × String))
    (etypemap : List (String × (String × String × String)))
    (E3 legacyFix : Bool) (events : List Event) : List Event × List ImgRec :=
  let lrec := (lookupT etypemap bookpath).getD ("", "", "")
  conv_go mid bookpath plang titlemap lrec.1 lrec.2.1 lrec.2.2 E3 legacyFix
    none 0 events

/-- The per-event loop of `update_alt_text` (plugin.py:721-731), threading
its own image counter `imgptr`. -/
def update_go (imgcnt : Nat) (imgsrc alttext : String) (imgptr : Nat) :
    List Event → List Event
  | [] => []
  | .textE text tpfx :: rest =>
    Event.textE text tpfx :: update_go imgcnt imgsrc alttext imgptr rest
  | .tagE tname ttype tattr tpfx :: rest =>
    if tname == "img" && (ttype == TagType.tsingle || ttype == TagType.tbegin) then
      let imgptr2 := imgptr + 1
      let tattr :=
        if imgptr2 == imgcnt then setT tattr "alt" (xmlencode (some alttext))
        else tattr
      Event.tagE tname ttype tattr tpfx :: update_go imgcnt imgsrc alttext imgptr2 rest
    else
      Event.tagE tname ttype tattr tpfx :: update_go imgcnt imgsrc alttext imgptr rest

/-- `update_alt_text` (plugin.py:715): replace the alt attribute of the
image occurrence whose ordinal equals `imgcnt` with the XML-encoded
replacement text (`imgsrc` is received but never used, as in the source). -/
def update_alt_text (xhtmldata : List Event) (imgcnt : Nat)
    (imgsrc alttext : String) : List Event :=
  update_go imgcnt imgsrc alttext 0 xhtmldata

/-- Is this event an image tag occurrence (begin or self-closing)? -/
def isImgEv : Event → Bool
  | .tagE tname ttype _ _ =>
    tname == "img" && (ttype == TagType.tsingle || ttype == TagType.tbegin)
  | .textE _ _ => false

/-- Number of image tag occurrences in an event stream. -/
def countImg (evs : List Event) : Nat :=
  (evs.filter isImgEv).length

/-- Overwrite an event's alt attribute with the XML-encoded replacement, as
the merge pass does on the matching image occurrence. -/
def setAltEnc (alttext : String) : Event → Event
  | .tagE tname ttype tattr tpfx =>
    .tagE tname ttype (setT tattr "alt" (xmlencode (some alttext))) tpfx
  | e => e

/-- Is this event a tag event? -/
def isTagEv : Event → Bool
  | .tagE _ _ _ _ => true
  | .textE _ _ => false

/-- The tag events of a stream, in order. -/
def tagsOf (evs : List Event) : List Event :=
  evs.filter isTagEv

/-- A single well-formed attribute-value token: non-empty and free of the
modelled whitespace characters. -/
def isTok (s : String) : Bool :=
  s != "" && s.toList.all (fun c => !isPyWs c)

/-- Every token of the parsed attribute value is well formed (rules out
values such as "a\tb" whose lone token still contains whitespace). -/
def wfVal (v : String) : Bool :=
  (parse_attribute (some v)).all isTok

/-- The keys of an association list are pairwise distinct. -/
def keysND {α : Type} : List (String × α) → Bool
  | [] => true
  | (k, _) :: rest => !(hasT rest k) && keysND rest

/-- Attribute dict well-formedness: names already trimmed, keys distinct. -/
def attrWF (m : Attrs) : Bool :=
  m.all (fun kv => pyStrip kv.1 == kv.1) && keysND m

/-- Event well-formedness for the fidelity statement: non-empty text nodes
and well-formed attribute dicts. -/
def evWF : Event → Bool
  | .textE txt _ => txt != ""
  | .tagE _ _ tattr _ => attrWF tattr

/-- The html begin tag already carries both language attributes equal to the
primary language. -/
def htmlLangOK (plang : String) : Event → Bool
  | .tagE tname ttype tattr _ =>
    if tname == "html" && ttype == TagType.tbegin then
      lookupT tattr "lang" == some plang && lookupT tattr "xml:lang" == some plang
    else true
  | .textE _ _ => true

/-- The tag's role attribute is already saturated and normalised: every role
`_role_from_etype` infers from its epub:type values is already present in
the parsed role list, and when that list is non-empty the stored role
attribute is exactly its space-join. -/
def rolesStable (tname : String) (tattr : Attrs) : Bool :=
  let evals := parse_attribute (some (getAD tattr "epub:type" ""))
  let rvals := parse_attribute (some (getAD tattr "role" ""))
  (evals.all (fun ept =>
    match _role_from_etype ept tname (hasT tattr "href") (hasT tattr "alt") with
    | some r => rvals.contains r
    | none => true)) &&
  (rvals.isEmpty || lookupT tattr "role" == some (spaceJoin rvals))

/-- Role augmentation is a no-op on this event. -/
def roleOK (E3 : Bool) : Event → Bool
  | .tagE tname ttype tattr _ =>
    if E3 && (ttype == TagType.tbegin || ttype == TagType.tsingle) &&
        hasT tattr "epub:type" then
      rolesStable tname tattr
    else true
  | .textE _ _ => true

/-- The epub:type and role attribute values of the event (when present)
parse into well-formed tokens. -/
def attrValsWF : Event → Bool
  | .tagE _ _ tattr _ =>
    (match lookupT tattr "epub:type" with
     | some v => wfVal v
     | none => true) &&
    (match lookupT tattr "role" with
     | some v => wfVal v
     | none => true)
  | .textE _ _ => true

/-- The landmark entry for this document, if any and fragment-kinded, has a
well-formed single-token semantic type. -/
def lmEtypeOK (etypemap : List (String × (String × String × String)))
    (bookpath : String) : Bool :=
  match lookupT etypemap bookpath with
  | some lrec => lrec.1 != "id" || isTok lrec.2.2
  | none => true

/-- Scan for the title-backfill hypotheses: `seen` records whether a
non-whitespace head-title text has occurred; the scan fails on a self-closed
head title, or on a head-title end tag before any such text. -/
def titleSafeGo (seen : Bool) : List Event → Bool
  | [] => true
  | .textE txt tpfx :: rest =>
    titleSafeGo
      (seen || (subStrB "head" tpfx && endsWithB tpfx "title" && pyStrip txt != ""))
      rest
  | .tagE tname ttype _ tpfx :: rest =>
    if tname == "title" && ttype == TagType.tsingle && subStrB "head" tpfx then
      false
    else if tname == "title" && ttype == TagType.tend && subStrB "head" tpfx &&
        !seen then
      false
    else titleSafeGo seen rest

/-- The document's head title is a begin/end element whose non-whitespace
text precedes every head-title end tag. -/
def titleSafeB (evs : List Event) : Bool :=
  titleSafeGo false evs

/-- The stream contains no image tag occurrence. -/
def noImgB (evs : List Event) : Bool :=
  evs.all (fun e => !isImgEv e)

/-- The ordinals of an image record list. -/
def ordsOf (l : List ImgRec) : List Nat :=
  l.map (fun r => r.2.2.1)

/-- The recorded alt texts of an image record list. -/
def recAlts (l : List ImgRec) : List String :=
  l.map (fun r => r.2.2.2.2)

/-- The alt value (default empty) of each image occurrence of a stream. -/
def imgAlts (evs : List Event) : List String :=
  (evs.filter isImgEv).map (fun e =>
    match e with
    | .tagE _ _ tattr _ => getAD tattr "alt" ""
    | .textE _ _ => "")

/-- Every image occurrence of the stream carries an alt attribute. -/
def imgsHaveAlt (evs : List Event) : Bool :=
  (evs.filter isImgEv).all (fun e =>
    match e with
    | .tagE _ _ tattr _ => hasT tattr "alt"
    | .textE _ _ => false)

/-- Per-character effect of the ampersand encoding pass. -/
def encAmp (c : Char) : List Char :=
  if c == '&' then "&amp;".toList else [c]

/-- Per-character effect after the ampersand and less-than passes. -/
def encLt (c : Char) : List Char :=
  if c == '<' then "&lt;".toList else encAmp c

/-- Per-character effect after the ampersand, less-than and greater-than
passes. -/
def encGt (c : Char) : List Char :=
  if c == '>' then "&gt;".toList else encLt c

/-- Per-character effect of the full encoding (all four passes). -/
def encAll (c : Char) : List Char :=
  if c == '"' then "&quot;".toList else encGt c

/-- Concatenate a per-character atom map over a character list. -/
def atomMap (g : Char → List Char) : List Char → List Char
  | [] => []
  | c :: cs => g c ++ atomMap g cs

/-- Nav events with two table-of-contents entries for document A separated
by one for document B: labels t1, t2, t3 in order. -/
def navC1evs : List Event := [
  Event.tagE "nav" TagType.tbegin [("epub:type", "toc")] "html.body",
  Event.tagE "a" TagType.tbegin [("href", "A")] "html.body.nav.ol.li",
  Event.textE "t1" "html.body.nav.ol.li.a",
  Event.tagE "a" TagType.tbegin [("href", "B")] "html.body.nav.ol.li",
  Event.textE "t2" "html.body.nav.ol.li.a",
  Event.tagE "a" TagType.tbegin [("href", "A")] "html.body.nav.ol.li",
  Event.textE "t3" "html.body.nav.ol.li.a"]

/-- A nav stream containing just an opened table-of-contents section. -/
def navWevs : List Event :=
  [Event.tagE "nav" TagType.tbegin [("epub:type", "toc")] "html.body"]

/-- Ncx events with two entries for document A separated by one for document
B: navlabels t1, t2, t3 in order. -/
def ncxC1evs : List Event := [
  Event.textE "t1" "ncx.navmap.navpoint.navlabel.text",
  Event.tagE "content" TagType.tsingle [("src", "A")] "ncx.navmap.navpoint",
  Event.textE "t2" "ncx.navmap.navpoint.navlabel.text",
  Event.tagE "content" TagType.tsingle [("src", "B")] "ncx.navmap.navpoint",
  Event.textE "t3" "ncx.navmap.navpoint.navlabel.text",
  Event.tagE "content" TagType.tsingle [("src", "A")] "ncx.navmap.navpoint"]

/-- An ncx stream with one recorded entry (document A) and a pending
navlabel for the next entry. -/
def ncxWevs : List Event := [
  Event.textE "Chap One" "ncx.navmap.navpoint.navlabel.text",
  Event.tagE "content" TagType.tsingle [("src", "A")] "ncx.navmap.navpoint",
  Event.textE "Chap Two" "ncx.navmap.navpoint.navlabel.text"]

/-- An OPF metadata stream with no dc:language declaration. -/
def opfC5evs : List Event :=
  [Event.tagE "metadata" TagType.tend [] "package"]

/-- A document with three image tags with alt texts x, y, z. -/
def mergeC4evs : List Event := [
  Event.tagE "img" TagType.tsingle [("src", "1.png"), ("alt", "x")] "html.body",
  Event.textE "mid" "html.body",
  Event.tagE "img" TagType.tsingle [("src", "2.png"), ("alt", "y")] "html.body",
  Event.tagE "img" TagType.tsingle [("src", "3.png"), ("alt", "z")] "html.body"]

/-- A document with a single image tag. -/
def mergeC4one : List Event :=
  [Event.tagE "img" TagType.tsingle [("src", "1.png")] "html.body"]

/-- A document with no images, no landmarks and a non-empty title, but
without language attributes on its html tag. -/
def fidC6evs : List Event := [
  Event.tagE "html" TagType.tbegin [] "",
  Event.tagE "head" TagType.tbegin [] "html",
  Event.tagE "title" TagType.tbegin [] "html.head",
  Event.textE "T" "html.head.title",
  Event.tagE "title" TagType.tend [] "html.head",
  Event.tagE "head" TagType.tend [] "html",
  Event.tagE "html" TagType.tend [] ""]

/-- The same document with the language attributes already present. -/
def fidC6good : List Event := [
  Event.tagE "html" TagType.tbegin [("lang", "en"), ("xml:lang", "en")] "",
  Event.tagE "head" TagType.tbegin [] "html",
  Event.tagE "title" TagType.tbegin [] "html.head",
  Event.textE "T" "html.head.title",
  Event.tagE "title" TagType.tend [] "html.head",
  Event.tagE "head" TagType.tend [] "html",
  Event.tagE "html" TagType.tend [] ""]

/-- A one-tag document whose id matches a landmark fragment. -/
def idemC7evs : List Event :=
  [Event.tagE "div" TagType.tbegin [("id", "s1")] "html.body"]

/-- A landmark map whose semantic type carries a stray leading space. -/
def idemC7map : List (String × (String × String × String)) :=
  [("doc", ("id", "s1", " chapter"))]

/-- The same landmark map with a well-formed semantic type. -/
def idemC7good : List (String × (String × String × String)) :=
  [("doc", ("id", "s1", "chapter"))]

/-- A document at path doc2 whose head title element is empty. -/
def backC9evs : List Event := [
  Event.tagE "html" TagType.tbegin [] "",
  Event.tagE "head" TagType.tbegin [] "html",
  Event.tagE "title" TagType.tbegin [] "html.head",
  Event.tagE "title" TagType.tend [] "html.head",
  Event.tagE "head" TagType.tend [] "html",
  Event.tagE "html" TagType.tend [] ""]

/-- The trim, landmark and language stages of the per-tag attribute pipeline
(everything before the alt-presence fix). -/
def langAttr (plang lt fr et n : String) (E3 : Bool) (tt : TagType)
    (a : Attrs) : Attrs :=
  langInject plang n tt (lmInject E3 lt fr et tt (stripAttrNames a))

/-- The per-tag attribute pipeline up to and including the alt-presence fix
(everything before role augmentation). -/
def preAttr (plang lt fr et n : String) (E3 : Bool) (tt : TagType)
    (a : Attrs) : Attrs :=
  if n == "img" && (tt == TagType.tsingle || tt == TagType.tbegin) then
    setT (langAttr plang lt fr et n E3 tt a) "alt"
      (getAD (langAttr plang lt fr et n E3 tt a) "alt" "")
  else langAttr plang lt fr et n E3 tt a

/-- The complete per-tag attribute pipeline of the rewriting loop. -/
def convAttr (plang lt fr et n : String) (E3 : Bool) (tt : TagType)
    (a : Attrs) : Attrs :=
  roleAug E3 n tt (preAttr plang lt fr et n E3 tt a)

/-- Landmark injection is a no-op on this event: when the landmark gate is
open and the tag id equals the fragment, the semantic type is already among
the parsed epub:type values. -/
def lmOK (E3 : Bool) (lt fr et : String) : Event → Bool
  | .tagE _ tt a _ =>
    if E3 && lt == "id" && (tt == TagType.tsingle || tt == TagType.tbegin) then
      match lookupT a "id" with
      | some idv =>
        if idv == fr then
          (parse_attribute (some (getAD a "epub:type" ""))).contains et
        else true
      | none => true
    else true
  | .textE _ _ => true

/-- Every image tag already carries an alt attribute. -/
def imgAltOK : Event → Bool
  | .tagE n tt a _ =>
    !(n == "img" && (tt == TagType.tsingle || tt == TagType.tbegin)) ||
      hasT a "alt"
  | .textE _ _ => true

/-- A self-closed title tag inside head: the one tag shape the rewriter
replaces by a begin/end pair. -/
def isHeadTitleSingle : Event → Bool
  | .tagE n tt _ p =>
    n == "title" && tt == TagType.tsingle && subStrB "head" p
  | .textE _ _ => false

/-- Stability of one event under the rewriting loop's tag transforms:
well-formed attributes and non-empty text, language attributes already set
on html, roles already saturated, landmark semantic type already present,
alt present on images, and no head title left self-closed. -/
def stableEv (plang lt fr et : String) (E3 : Bool) (e : Event) : Bool :=
  evWF e && htmlLangOK plang e && roleOK E3 e && lmOK E3 lt fr et e &&
  imgAltOK e && !(isHeadTitleSingle e)


/-! Helper lemmas and claim theorems. -/

/-- Running the nav loop over a concatenation composes. -/
theorem navRun_append (resolve fragOf : String → String) (nb : String)
    (st : NavState) (l1 l2 : List Event) :
    navRun resolve fragOf nb st (l1 ++ l2)
      = navRun resolve fragOf nb (navRun resolve fragOf nb st l1) l2 := by
  induction l1 generalizing st with
  | nil => rfl
  | cons e t ih => simp [navRun, ih]

/-- Running the ncx loop over a concatenation composes. -/
theorem ncxRun_append (resolve : String → String) (st : NcxState)
    (l1 l2 : List Event) :
    ncxRun resolve st (l1 ++ l2)
      = ncxRun resolve (ncxRun resolve st l1) l2 := by
  induction l1 generalizing st with
  | nil => rfl
  | cons e t ih => simp [ncxRun, ih]

/-- C1: counterexample.  With table-of-contents entries A ("t1"), B ("t2"),
A ("t3"), in the nav format and likewise in the legacy ncx format, the
recorded title for document A is "t3", not the first label "t1": both
builders only compare against the immediately preceding entry's target, so
a duplicate href separated by another document's entry is NOT ignored and
overwrites the title. -/
theorem C1_first_label_counterexample :
    ((parse_nav (fun h => h) (fun _ => "") "navdoc" navC1evs).1
        = [("A", "t3"), ("B", "t2")] ∧
     lookupT (parse_nav (fun h => h) (fun _ => "") "navdoc" navC1evs).1 "A"
        ≠ some "t1") ∧
    (parse_ncx (fun h => h) ncxC1evs = [("A", some "t3"), ("B", some "t2")] ∧
     lookupT (parse_ncx (fun h => h) ncxC1evs) "A" ≠ some (some "t1")) :=
  ⟨⟨rfl, by decide⟩, ⟨rfl, by decide⟩⟩

/-- Nav half of the amended C1: a table-of-contents entry (anchor with an
href followed by its label text, outside a heading-1 context that would
capture the nav title) is ignored exactly when its target document equals
the immediately preceding entry's target (`prevbookpath`); otherwise its
label is recorded for the target, overwriting any earlier title. -/
theorem nav_label_step (resolve fragOf : String → String)
    (navbookpath : String) (evs : List Event) (ha hp hl label : String)
    (htoc : (navRun resolve fragOf navbookpath navInit evs).in_toc = true)
    (hh1 : (navRun resolve fragOf navbookpath navInit evs).navtitle.isSome = true
           ∨ endsWithB hl "h1" = false) :
    (navRun resolve fragOf navbookpath navInit
        (evs ++ [Event.tagE "a" TagType.tbegin [("href", ha)] hp,
                 Event.textE label hl])).titlemap
      = (if resolve ha ==
            (navRun resolve fragOf navbookpath navInit evs).prevbookpath then
           (navRun resolve fragOf navbookpath navInit evs).titlemap
         else
           setT (navRun resolve fragOf navbookpath navInit evs).titlemap
             (resolve ha) label) := by
  set st := navRun resolve fragOf navbookpath navInit evs with hst
  rw [navRun_append]
  rw [← hst]
  show (parse_nav_step resolve fragOf navbookpath
          (parse_nav_step resolve fragOf navbookpath st
            (Event.tagE "a" TagType.tbegin [("href", ha)] hp))
          (Event.textE label hl)).titlemap = _
  have h1 : parse_nav_step resolve fragOf navbookpath st
      (Event.tagE "a" TagType.tbegin [("href", ha)] hp)
      = { st with tochref := some ha, getlabel := true } := by
    simp [parse_nav_step, lookupT, htoc]
  rw [h1]
  rcases hh1 with hs | he
  · obtain ⟨v, hv⟩ := Option.isSome_iff_exists.mp hs
    simp [parse_nav_step, hv, htoc]
    split <;> rfl
  · simp [parse_nav_step, he, htoc]
    split <;> rfl

/-- Ncx half of the amended C1: a content tag under a navpoint records the
pending navlabel for its target document exactly when that target differs
from the immediately preceding entry's target (`prevbookpath`), overwriting
any earlier title; an entry whose target equals the preceding entry's is
ignored. -/
theorem ncx_label_step (resolve : String → String) (evs : List Event)
    (href tp : String) (tt : TagType)
    (hnp : endsWithB tp "navpoint" = true) :
    (ncxRun resolve ⟨none, "", []⟩
        (evs ++ [Event.tagE "content" tt [("src", href)] tp])).titlemap
      = (if resolve href ==
            (ncxRun resolve ⟨none, "", []⟩ evs).prevbookpath then
           (ncxRun resolve ⟨none, "", []⟩ evs).titlemap
         else
           setT (ncxRun resolve ⟨none, "", []⟩ evs).titlemap (resolve href)
             (ncxRun resolve ⟨none, "", []⟩ evs).navlabel) := by
  set st := ncxRun resolve ⟨none, "", []⟩ evs with hst
  rw [ncxRun_append, ← hst]
  show (parse_ncx_step resolve st
      (Event.tagE "content" tt [("src", href)] tp)).titlemap = _
  have hc : ("content" == "content" && hasT [("src", href)] "src" &&
      endsWithB tp "navpoint") = true := by
    rw [hnp]
    rfl
  simp only [parse_ncx_step]
  rw [if_pos hc]
  dsimp only
  by_cases hb : (resolve (getAD [("src", href)] "src" "") == st.prevbookpath)
      = true
  · have hbne : (resolve (getAD [("src", href)] "src" "") != st.prevbookpath)
        = false := by
      rw [show (resolve (getAD [("src", href)] "src" "") != st.prevbookpath)
          = !(resolve (getAD [("src", href)] "src" "") == st.prevbookpath)
        from rfl, hb]
      rfl
    rw [hbne]
    rw [show getAD [("src", href)] "src" "" = href from rfl] at hb
    rw [if_pos hb]
    rfl
  · rw [Bool.not_eq_true] at hb
    have hbne : (resolve (getAD [("src", href)] "src" "") != st.prevbookpath)
        = true := by
      rw [show (resolve (getAD [("src", href)] "src" "") != st.prevbookpath)
          = !(resolve (getAD [("src", href)] "src" "") == st.prevbookpath)
        from rfl, hb]
      rfl
    rw [hbne]
    rw [show getAD [("src", href)] "src" "" = href from rfl] at hb
    rw [if_neg (show ¬((resolve href == st.prevbookpath) = true) from by
      simp [hb])]
    rfl

/-- C1 (amended): in both navigation-map builders — the modern nav format
and the legacy ncx format — a table-of-contents entry is ignored exactly
when its target document equals the immediately preceding entry's target
(`prevbookpath`); an entry whose target differs always records its label
(for ncx, the pending navlabel), overwriting any earlier title for that
document.  Only consecutive duplicate hrefs are ignored; with entries for
other documents in between, the later entry wins. -/
theorem C1_first_label_amended (resolve fragOf : String → String)
    (navbookpath : String) (evs : List Event) (ha hp hl label : String)
    (htoc : (navRun resolve fragOf navbookpath navInit evs).in_toc = true)
    (hh1 : (navRun resolve fragOf navbookpath navInit evs).navtitle.isSome = true
           ∨ endsWithB hl "h1" = false)
    (resolve2 : String → String) (nevs : List Event) (href tp2 : String)
    (tt2 : TagType) (hnp : endsWithB tp2 "navpoint" = true) :
    ((navRun resolve fragOf navbookpath navInit
        (evs ++ [Event.tagE "a" TagType.tbegin [("href", ha)] hp,
                 Event.textE label hl])).titlemap
      = (if resolve ha ==
            (navRun resolve fragOf navbookpath navInit evs).prevbookpath then
           (navRun resolve fragOf navbookpath navInit evs).titlemap
         else
           setT (navRun resolve fragOf navbookpath navInit evs).titlemap
             (resolve ha) label)) ∧
    ((ncxRun resolve2 ⟨none, "", []⟩
        (nevs ++ [Event.tagE "content" tt2 [("src", href)] tp2])).titlemap
      = (if resolve2 href ==
            (ncxRun resolve2 ⟨none, "", []⟩ nevs).prevbookpath then
           (ncxRun resolve2 ⟨none, "", []⟩ nevs).titlemap
         else
           setT (ncxRun resolve2 ⟨none, "", []⟩ nevs).titlemap (resolve2 href)
             (ncxRun resolve2 ⟨none, "", []⟩ nevs).navlabel)) :=
  ⟨nav_label_step resolve fragOf navbookpath evs ha hp hl label htoc hh1,
   ncx_label_step resolve2 nevs href tp2 tt2 hnp⟩

/-- Witness for C1 (amended): a concrete nav stream records a new entry's
label, and a concrete ncx stream records a new entry's pending navlabel. -/
theorem C1_first_label_amended_witness :
    (navRun (fun h => h) (fun _ => "") "navdoc" navInit
        (navWevs ++ [Event.tagE "a" TagType.tbegin [("href", "A")] "p",
                     Event.textE "t1" "q"])).titlemap
      = setT (navRun (fun h => h) (fun _ => "") "navdoc" navInit
          navWevs).titlemap "A" "t1" ∧
    (ncxRun (fun h => h) ⟨none, "", []⟩
        (ncxWevs ++ [Event.tagE "content" TagType.tsingle [("src", "B")]
          "ncx.navmap.navpoint"])).titlemap
      = setT (ncxRun (fun h => h) ⟨none, "", []⟩ ncxWevs).titlemap "B"
          (ncxRun (fun h => h) ⟨none, "", []⟩ ncxWevs).navlabel := by
  have h := C1_first_label_amended (fun h => h) (fun _ => "") "navdoc" navWevs
    "A" "p" "q" "t1" (by decide) (Or.inr (by decide)) (fun h => h) ncxWevs
    "B" "ncx.navmap.navpoint" TagType.tsingle (by decide)
  constructor
  · rw [h.1]
    decide
  · rw [h.2]
    decide

/-- C2: evaluation at the failing input.  For semantic type "tip" on an `a`
tag carrying an href, the code returns "doc-tip" — Python's `in` applied to
the string "aside" (a missing tuple comma in `_aria_role_allowed_tags`)
makes the specific allowance a substring test, and "a" is a substring of
"aside" — while the claimed algorithm (allowed-tag set membership,
`inferRoleSpec`) returns none: the general allowance fails because `a` has
hrefAllowed = false, and the set for doc-tip contains only "aside". -/
theorem C2_role_engine_code_eval :
    _role_from_etype "tip" "a" true false = some "doc-tip" ∧
    inferRoleSpec "tip" "a" true false = none :=
  ⟨rfl, rfl⟩

/-- C3: counterexample.  For semantic type "footnote" on a `span` tag with
no href and no alt, the engine does NOT return none: `span` appears in
`_all_role_tags` with (href_allowed = true, need_alt = false), so the
general allowance licenses "doc-footnote". -/
theorem C3_role_determinism_counterexample :
    _role_from_etype "footnote" "span" false false = some "doc-footnote" ∧
    _role_from_etype "footnote" "span" false false ≠ none :=
  ⟨rfl, by decide⟩

/-- C3 (amended): role inference is deterministic on these inputs: semantic
type "chapter" on a `section` tag (no href, no alt) infers "doc-chapter",
and semantic type "footnote" on a `span` tag (no href, no alt) infers
"doc-footnote" through the general allowance, span being in the
general-allowance table with no href/alt restriction violated. -/
theorem C3_role_determinism_amended :
    _role_from_etype "chapter" "section" false false = some "doc-chapter" ∧
    _role_from_etype "footnote" "span" false false = some "doc-footnote" :=
  ⟨rfl, rfl⟩

/-- C5: counterexample.  On a metadata fragment with no language
declaration, the run does fail with -1 (distinct from success 0), but the
rewritten metadata IS written back first: the trace shows the
setmetadataxml action (with the injected accessibility block) occurring
before the abort, contradicting "the rewritten metadata is not written back
on this failure path". -/
theorem C5_missing_language_counterexample :
    opf_stage true opfC5evs =
      [RunEv.persistMeta
         (accessMetaE3 ++ [MetaItem.mtag "metadata" TagType.tend []]),
       RunEv.abort (-1)] :=
  rfl

/-- C5 (amended): whenever the metadata loop finds no primary language the
OPF stage's trace is exactly: persist the rewritten metadata (the
unconditional `bk.setmetadataxml` of plugin.py:344), then abort with the
failure result -1 distinct from success; the abort prevents later stages
but not the metadata write-back. -/
theorem C5_missing_language_amended (E3 : Bool) (events : List Event)
    (h : (meta_go E3 ⟨none, false⟩ events).2.plang = none) :
    opf_stage E3 events =
      [RunEv.persistMeta (meta_go E3 ⟨none, false⟩ events).1,
       RunEv.abort (-1)] := by
  simp only [opf_stage, h]
  rfl

/-- Witness for C5 (amended) at a concrete metadata stream. -/
theorem C5_missing_language_amended_witness :
    opf_stage true opfC5evs =
      [RunEv.persistMeta (meta_go true ⟨none, false⟩ opfC5evs).1,
       RunEv.abort (-1)] :=
  C5_missing_language_amended true opfC5evs (by rfl)

theorem countImg_cons (e : Event) (l : List Event) :
    countImg (e :: l) = if isImgEv e then countImg l + 1 else countImg l := by
  simp [countImg, List.filter_cons]
  split <;> simp

theorem update_go_cons_img (k : Nat) (s t : String) (ptr : Nat)
    (n : String) (tt : TagType) (a : Attrs) (p : String) (rest : List Event)
    (h : (n == "img" && (tt == TagType.tsingle || tt == TagType.tbegin)) = true) :
    update_go k s t ptr (Event.tagE n tt a p :: rest)
      = Event.tagE n tt
          (if ptr + 1 == k then setT a "alt" (xmlencode (some t)) else a) p ::
        update_go k s t (ptr + 1) rest := by
  simp [update_go, h]

theorem update_go_cons_nonimg (k : Nat) (s t : String) (ptr : Nat)
    (n : String) (tt : TagType) (a : Attrs) (p : String) (rest : List Event)
    (h : (n == "img" && (tt == TagType.tsingle || tt == TagType.tbegin)) = false) :
    update_go k s t ptr (Event.tagE n tt a p :: rest)
      = Event.tagE n tt a p :: update_go k s t ptr rest := by
  simp [update_go, h]

set_option maxRecDepth 4000 in
theorem update_go_get (imgcnt : Nat) (imgsrc alttext : String) :
    ∀ (evs : List Event) (imgptr i : Nat),
    (update_go imgcnt imgsrc alttext imgptr evs)[i]? =
      (evs[i]?).map (fun e =>
        if isImgEv e && (imgptr + countImg (evs.take (i+1)) == imgcnt) then
          setAltEnc alttext e
        else e) := by
  intro evs
  induction evs with
  | nil => intro imgptr i; simp [update_go]
  | cons e rest ih =>
    intro imgptr i
    cases e with
    | textE t p =>
      cases i with
      | zero => simp [update_go, isImgEv]
      | succ j =>
        have h := ih imgptr j
        simp only [update_go, List.getElem?_cons_succ, List.take_succ_cons,
          countImg_cons, isImgEv, if_false, Bool.false_eq_true]
        exact h
    | tagE n tt a p =>
      by_cases himg : (n == "img" && (tt == TagType.tsingle || tt == TagType.tbegin)) = true
      · cases i with
        | zero =>
          rw [update_go_cons_img _ _ _ _ _ _ _ _ _ himg]
          simp [isImgEv, countImg, setAltEnc, himg, List.filter_cons]
          split <;> rfl
        | succ j =>
          rw [update_go_cons_img _ _ _ _ _ _ _ _ _ himg]
          have hi : isImgEv (Event.tagE n tt a p) = true := by
            simpa [isImgEv] using himg
          have h := ih (imgptr + 1) j
          simp only [List.getElem?_cons_succ, List.take_succ_cons, countImg_cons, hi,
            if_true]
          have e1 : imgptr + (countImg (rest.take (j+1)) + 1)
              = imgptr + 1 + countImg (rest.take (j+1)) := by omega
          rw [e1]
          exact h
      · cases i with
        | zero =>
          rw [update_go_cons_nonimg _ _ _ _ _ _ _ _ _
            (by simpa using himg)]
          simp only [List.getElem?_cons_zero, Option.map_some, isImgEv]
          simp [himg]
        | succ j =>
          rw [update_go_cons_nonimg _ _ _ _ _ _ _ _ _
            (by simpa using himg)]
          have h := ih imgptr j
          simp only [List.getElem?_cons_succ, List.take_succ_cons, countImg_cons,
            isImgEv]
          rw [if_neg (by simpa using himg)]
          exact h

/-- C4 (amended): the Alt-Text Merge Pass re-emits every event unchanged
except the image occurrence whose ordinal equals the target, whose alt
attribute is overwritten with the XML-ENCODED replacement text
(`xmlencode` is applied by the source at plugin.py:730); since "a tree"
contains no XML-reserved character, the concrete three-image example holds
with the replacement text stored verbatim and only the second image
changed. -/
theorem C4_merge_frame_amended :
    (∀ (evs : List Event) (imgcnt : Nat) (imgsrc alttext : String) (i : Nat),
      (update_alt_text evs imgcnt imgsrc alttext)[i]? =
        (evs[i]?).map (fun e =>
          if isImgEv e && (countImg (evs.take (i+1)) == imgcnt) then
            setAltEnc alttext e
          else e)) ∧
    update_alt_text mergeC4evs 2 "2.png" "a tree" = [
      Event.tagE "img" TagType.tsingle [("src", "1.png"), ("alt", "x")] "html.body",
      Event.textE "mid" "html.body",
      Event.tagE "img" TagType.tsingle [("src", "2.png"), ("alt", "a tree")] "html.body",
      Event.tagE "img" TagType.tsingle [("src", "3.png"), ("alt", "z")] "html.body"] := by
  constructor
  · intro evs imgcnt imgsrc alttext i
    have h := update_go_get imgcnt imgsrc alttext evs 0 i
    simpa [update_alt_text] using h
  · rfl

/-- C4: counterexample.  With replacement text consisting of one double
quote, the merged alt attribute holds "&quot;", not the supplied
replacement text: the pass stores `xmlencode` of the replacement, so the
claim's "holds exactly the replacement text" fails for XML-reserved
characters. -/
theorem C4_merge_frame_counterexample :
    update_alt_text mergeC4one 1 "1.png" "\"" =
      [Event.tagE "img" TagType.tsingle [("src", "1.png"), ("alt", "&quot;")]
        "html.body"] ∧
    ("&quot;" : String) ≠ "\"" :=
  ⟨rfl, by decide⟩

theorem lookupT_setT_self {α : Type} (m : List (String × α)) (k : String) (v : α) :
    lookupT (setT m k v) k = some v := by
  induction m with
  | nil => simp [setT, lookupT]
  | cons kv rest ih =>
    by_cases h : (kv.1 == k) = true
    · simp [setT, h, lookupT]
    · simp at h
      simp [setT, h, lookupT, ih]

theorem lookupT_setT_ne {α : Type} (m : List (String × α)) (k k' : String) (v : α)
    (h : k ≠ k') : lookupT (setT m k v) k' = lookupT m k' := by
  induction m with
  | nil => simp [setT, lookupT, h]
  | cons kv rest ih =>
    by_cases h0 : (kv.1 == k) = true
    · simp at h0
      subst h0
      simp [setT, lookupT, h]
    · simp at h0
      simp [setT, h0, lookupT, ih]

theorem setT_id_of_lookup {α : Type} (m : List (String × α)) (k : String) (v : α)
    (h : lookupT m k = some v) : setT m k v = m := by
  induction m with
  | nil => simp [lookupT] at h
  | cons kv rest ih =>
    by_cases h0 : (kv.1 == k) = true
    · simp [lookupT, h0] at h
      simp at h0
      cases kv with
      | mk k0 w =>
        simp at h0 ⊢
        simp [setT, h0]
        simp at h
        exact h.symm
    · simp [lookupT, h0] at h
      simp at h0
      simp [setT, h0]
      exact ih h

theorem hasT_setT_self {α : Type} (m : List (String × α)) (k : String) (v : α) :
    hasT (setT m k v) k = true := by
  simp [hasT, lookupT_setT_self]

theorem roleAug_lookup_ne (E3 : Bool) (n : String) (tt : TagType) (m : Attrs)
    (k : String) (h : k ≠ "role") :
    lookupT (roleAug E3 n tt m) k = lookupT m k := by
  unfold roleAug
  split
  · dsimp only
    split
    · exact lookupT_setT_ne _ _ _ _ (fun he => h he.symm)
    · rfl
  · rfl

theorem xmlheaderFix_lookup_ne (lf : Bool) (tt : TagType) (m : Attrs)
    (k : String) (h : k ≠ "special") :
    lookupT (xmlheaderFix lf tt m) k = lookupT m k := by
  unfold xmlheaderFix
  split
  · exact lookupT_setT_ne _ _ _ _ (fun he => h he.symm)
  · rfl

theorem countImg_append (a b : List Event) :
    countImg (a ++ b) = countImg a + countImg b := by
  simp [countImg, List.filter_append]

theorem imgsHaveAlt_append (a b : List Event) :
    imgsHaveAlt (a ++ b) = (imgsHaveAlt a && imgsHaveAlt b) := by
  simp [imgsHaveAlt, List.filter_append, List.all_append]

theorem imgAlts_append (a b : List Event) :
    imgAlts (a ++ b) = imgAlts a ++ imgAlts b := by
  simp [imgAlts, List.filter_append]

theorem pushText_countImg (t p : String) : countImg (pushText t p) = 0 := by
  unfold pushText
  split <;> simp [countImg, isImgEv, List.filter]

theorem pushText_imgsHaveAlt (t p : String) : imgsHaveAlt (pushText t p) = true := by
  unfold pushText
  split <;> simp [imgsHaveAlt, isImgEv, List.filter]

theorem pushText_imgAlts (t p : String) : imgAlts (pushText t p) = [] := by
  unfold pushText
  split <;> simp [imgAlts, isImgEv, List.filter]

theorem isImgEv_tag (n : String) (tt : TagType) (a : Attrs) (p : String) :
    isImgEv (Event.tagE n tt a p)
      = (n == "img" && (tt == TagType.tsingle || tt == TagType.tbegin)) := rfl

theorem isImgEv_text (t p : String) : isImgEv (Event.textE t p) = false := rfl

theorem countImg_nil : countImg [] = 0 := rfl

theorem imgsHaveAlt_nil : imgsHaveAlt [] = true := rfl

theorem imgAlts_nil : imgAlts [] = [] := rfl

theorem recAlts_nil : recAlts [] = [] := rfl

theorem imgsHaveAlt_cons_nonimg (e : Event) (l : List Event)
    (h : isImgEv e = false) : imgsHaveAlt (e :: l) = imgsHaveAlt l := by
  simp [imgsHaveAlt, List.filter_cons, h]

theorem imgAlts_cons_nonimg (e : Event) (l : List Event)
    (h : isImgEv e = false) : imgAlts (e :: l) = imgAlts l := by
  simp [imgAlts, List.filter_cons, h]

theorem imgsHaveAlt_cons_img (n : String) (tt : TagType) (a : Attrs) (p : String)
    (l : List Event) (h : isImgEv (Event.tagE n tt a p) = true) :
    imgsHaveAlt (Event.tagE n tt a p :: l) = (hasT a "alt" && imgsHaveAlt l) := by
  simp [imgsHaveAlt, List.filter_cons, h]

theorem imgAlts_cons_img (n : String) (tt : TagType) (a : Attrs) (p : String)
    (l : List Event) (h : isImgEv (Event.tagE n tt a p) = true) :
    imgAlts (Event.tagE n tt a p :: l) = getAD a "alt" "" :: imgAlts l := by
  simp [imgAlts, List.filter_cons, h]

theorem ordsOf_cons (r : ImgRec) (l : List ImgRec) :
    ordsOf (r :: l) = r.2.2.1 :: ordsOf l := rfl

theorem recAlts_cons (r : ImgRec) (l : List ImgRec) :
    recAlts (r :: l) = r.2.2.2.2 :: recAlts l := rfl

theorem countImg_ite_push (b : Bool) (t p : String) :
    countImg (if b then pushText t p else []) = 0 := by
  cases b
  · rfl
  · exact pushText_countImg t p

theorem imgsHaveAlt_ite_push (b : Bool) (t p : String) :
    imgsHaveAlt (if b then pushText t p else []) = true := by
  cases b
  · rfl
  · exact pushText_imgsHaveAlt t p

theorem imgAlts_ite_push (b : Bool) (t p : String) :
    imgAlts (if b then pushText t p else []) = [] := by
  cases b
  · rfl
  · exact pushText_imgAlts t p

theorem conv_go_img_inv (mid bookpath plang : String)
    (tm : List (String × String)) (lt fr et : String) (E3 lf : Bool)
    (evs : List Event) : ∀ (mt : Option String) (c : Nat),
    ordsOf (conv_go mid bookpath plang tm lt fr et E3 lf mt c evs).2
        = List.range' (c+1) (countImg evs) ∧
    countImg (conv_go mid bookpath plang tm lt fr et E3 lf mt c evs).1
        = countImg evs ∧
    imgsHaveAlt (conv_go mid bookpath plang tm lt fr et E3 lf mt c evs).1 = true ∧
    recAlts (conv_go mid bookpath plang tm lt fr et E3 lf mt c evs).2
        = imgAlts (conv_go mid bookpath plang tm lt fr et E3 lf mt c evs).1 := by
  induction evs with
  | nil =>
    intro mt c
    simp [conv_go, ordsOf, recAlts, imgAlts, imgsHaveAlt, countImg, List.filter,
      List.range']
  | cons e rest ih =>
    intro mt c
    cases e with
    | textE t p =>
      simp only [conv_go]
      refine ⟨?_, ?_, ?_, ?_⟩
      · simp only [countImg_cons, isImgEv_text, Bool.false_eq_true, if_false]
        exact (ih _ c).1
      · simp only [countImg_append, pushText_countImg, countImg_cons, isImgEv_text,
          Bool.false_eq_true, if_false, Nat.zero_add]
        exact (ih _ c).2.1
      · simp only [imgsHaveAlt_append, pushText_imgsHaveAlt, Bool.true_and]
        exact (ih _ c).2.2.1
      · simp only [imgAlts_append, pushText_imgAlts, List.nil_append]
        exact (ih _ c).2.2.2
    | tagE n tt a0 p =>
      by_cases hts : (n == "title" && tt == TagType.tsingle && subStrB "head" p) = true
      · rw [Bool.and_eq_true, Bool.and_eq_true] at hts
        obtain ⟨⟨hn, htt⟩, hsub⟩ := hts
        replace hn : n = "title" := by simpa using hn
        replace htt : tt = TagType.tsingle := by simpa using htt
        subst hn; subst htt
        simp only [conv_go, hsub]
        simp only [countImg_cons, countImg_append, countImg_nil, countImg_ite_push,
          pushText_countImg, imgsHaveAlt_append, imgsHaveAlt_ite_push,
          pushText_imgsHaveAlt, imgsHaveAlt_nil, imgAlts_append, imgAlts_ite_push,
          pushText_imgAlts, imgAlts_nil, isImgEv_tag, isImgEv_text]
        simp only [List.cons_append, List.nil_append, List.append_nil]
        refine ⟨?_, ?_, ?_, ?_⟩ <;>
          simp [countImg_cons, countImg_append, pushText_countImg, countImg_nil,
            isImgEv_tag, (ih _ c).1, (ih _ c).2.1, (ih _ c).2.2.1, (ih _ c).2.2.2,
            imgsHaveAlt_append, pushText_imgsHaveAlt, imgAlts_append, pushText_imgAlts,
            imgsHaveAlt_cons_nonimg, imgAlts_cons_nonimg, imgsHaveAlt_nil, imgAlts_nil]
      · rw [Bool.not_eq_true] at hts
        by_cases himg : (n == "img" && (tt == TagType.tsingle || tt == TagType.tbegin)) = true
        · have hn : n = "img" := by
            rw [Bool.and_eq_true] at himg
            simpa using himg.1
          have htt : (tt == TagType.tsingle || tt == TagType.tbegin) = true := by
            rw [Bool.and_eq_true] at himg
            exact himg.2
          subst hn
          have hf : ("img" == "title") = false := rfl
          simp only [conv_go, htt, hf, Bool.and_true, Bool.false_and, Bool.true_and,
            beq_self_eq_true, Bool.false_eq_true, if_true, if_false,
            List.nil_append, List.singleton_append]
          have hAlt : ∀ (m : Attrs) (v : String),
              lookupT (xmlheaderFix lf tt (roleAug E3 "img" tt (setT m "alt" v)))
                "alt" = some v := by
            intro m v
            rw [xmlheaderFix_lookup_ne _ _ _ _ (by decide),
              roleAug_lookup_ne _ _ _ _ _ (by decide), lookupT_setT_self]
          refine ⟨?_, ?_, ?_, ?_⟩
          · rw [ordsOf_cons, (ih _ (c+1)).1, countImg_cons]
            simp [isImgEv_tag, htt, List.range']
          · rw [countImg_cons, countImg_cons]
            simp [isImgEv_tag, htt, (ih _ (c+1)).2.1]
          · rw [imgsHaveAlt_cons_img _ _ _ _ _ (by simp [isImgEv_tag, htt])]
            simp [hasT, hAlt, (ih _ (c+1)).2.2.1]
          · rw [recAlts_cons, imgAlts_cons_img _ _ _ _ _ (by simp [isImgEv_tag, htt])]
            simp [getAD, hAlt, (ih _ (c+1)).2.2.2]
        · rw [Bool.not_eq_true] at himg
          simp only [conv_go, himg, hts]
          simp only [Bool.false_eq_true, if_false]
          refine ⟨?_, ?_, ?_, ?_⟩
          · simp only [List.nil_append, countImg_cons, isImgEv_tag, himg,
              Bool.false_eq_true, if_false]
            exact (ih _ c).1
          · simp only [countImg_append, countImg_ite_push, countImg_cons,
              isImgEv_tag, himg, Bool.false_eq_true, if_false, Nat.zero_add,
              List.singleton_append]
            simp [countImg_nil, (ih _ c).2.1]
          · simp only [imgsHaveAlt_append, imgsHaveAlt_ite_push, Bool.true_and,
              List.singleton_append]
            rw [imgsHaveAlt_cons_nonimg _ _ (by simp [isImgEv_tag, himg])]
            exact (ih _ c).2.2.1
          · simp only [imgAlts_append, imgAlts_ite_push, List.nil_append,
              List.singleton_append]
            rw [imgAlts_cons_nonimg _ _ (by simp [isImgEv_tag, himg])]
            exact (ih _ c).2.2.2

/-- C8: for every document, the Document Rewriter records image ordinals
1, 2, 3, ... densely in document order (one per image occurrence, begin or
self-closing, regardless of alt presence); every image tag in the output
carries an alt attribute whose value is exactly the recorded prior value;
and the output stream contains exactly as many image occurrences as the
input, so the Alt-Text Merge Pass — which numbers occurrences 1, 2, 3, ...
in stream order by the same begin/self-closing test (see the merge-pass
characterisation under C4) — derives the identical ordinal for each
occurrence. -/
theorem C8_ordinal_invariants (mid bookpath plang : String)
    (titlemap : List (String × String))
    (etypemap : List (String × (String × String × String)))
    (E3 legacyFix : Bool) (events : List Event) :
    ordsOf (convert_xhtml mid bookpath plang titlemap etypemap
        E3 legacyFix events).2 = List.range' 1 (countImg events) ∧
    countImg (convert_xhtml mid bookpath plang titlemap etypemap
        E3 legacyFix events).1 = countImg events ∧
    imgsHaveAlt (convert_xhtml mid bookpath plang titlemap etypemap
        E3 legacyFix events).1 = true ∧
    recAlts (convert_xhtml mid bookpath plang titlemap etypemap
        E3 legacyFix events).2
      = imgAlts (convert_xhtml mid bookpath plang titlemap etypemap
          E3 legacyFix events).1 := by
  unfold convert_xhtml
  exact conv_go_img_inv mid bookpath plang titlemap _ _ _ E3 legacyFix events none 0

/-- A title-safe scan makes the rewriting loop independent of the TitleMap:
no injection point is ever reached. -/
theorem conv_go_tm_indep (mid bookpath plang : String) (lt fr et : String)
    (E3 lf : Bool) (evs : List Event) :
    ∀ (mt : Option String) (c : Nat) (tm tm' : List (String × String)),
    titleSafeGo mt.isSome evs = true →
    conv_go mid bookpath plang tm lt fr et E3 lf mt c evs
      = conv_go mid bookpath plang tm' lt fr et E3 lf mt c evs := by
  induction evs with
  | nil => intro mt c tm tm' _; rfl
  | cons e rest ih =>
    intro mt c tm tm' h
    cases e with
    | textE t p =>
      rw [titleSafeGo] at h
      simp only [conv_go]
      have hiso : (if subStrB "head" p && endsWithB p "title" && pyStrip t != ""
          then some t else mt).isSome
          = (mt.isSome ||
             (subStrB "head" p && endsWithB p "title" && pyStrip t != "")) := by
        by_cases hc :
            (subStrB "head" p && endsWithB p "title" && pyStrip t != "") = true
        · simp [hc]
        · rw [Bool.not_eq_true] at hc
          simp [hc]
      rw [ih _ c tm tm' (by rw [hiso]; exact h)]
    | tagE n tt a0 p =>
      rw [titleSafeGo] at h
      by_cases h1 : (n == "title" && tt == TagType.tsingle && subStrB "head" p) = true
      · rw [if_pos h1] at h
        exact absurd h (by simp)
      · rw [Bool.not_eq_true] at h1
        rw [if_neg (by simp [h1])] at h
        by_cases h2 : (n == "title" && tt == TagType.tend && subStrB "head" p) = true
        · have hseen : mt.isSome = true := by
            by_contra hc
            rw [Bool.not_eq_true] at hc
            rw [if_pos (by simp [h2, hc])] at h
            exact absurd h (by simp)
          rw [if_neg (by simp [hseen])] at h
          have hnone : mt.isNone = false := by
            cases mt
            · simp at hseen
            · rfl
          have hpre : (n == "title" && tt == TagType.tend && subStrB "head" p &&
              mt.isNone) = false := by
            simp [hnone]
          simp only [conv_go, h1, hpre, Bool.false_eq_true, if_false]
          rw [ih _ _ tm tm' h]
        · rw [Bool.not_eq_true] at h2
          rw [if_neg (by simp [h2])] at h
          have hpre : (n == "title" && tt == TagType.tend && subStrB "head" p &&
              mt.isNone) = false := by
            rw [h2, Bool.false_and]
          simp only [conv_go, h1, hpre, Bool.false_eq_true, if_false]
          rw [ih _ _ tm tm' h]

/-- C9: title backfill.  Concretely, with TitleMap doc2 -> "Chapter Two" and
a document at path doc2 whose head title element is empty, the output
contains the title element filled with the text "Chapter Two" (the whole
output stream is given).  Generally, for every document whose head title is
a begin/end element with non-whitespace text preceding every head-title end
tag (`titleSafeB`), the rewriter's output is independent of the TitleMap
entirely, so the existing title text is left untouched regardless of the
map's contents. -/
theorem C9_title_backfill :
    (convert_xhtml "m" "doc2" "en" [("doc2", "Chapter Two")] [] true false
        backC9evs).1 = [
      Event.tagE "html" TagType.tbegin [("lang", "en"), ("xml:lang", "en")] "",
      Event.tagE "head" TagType.tbegin [] "html",
      Event.tagE "title" TagType.tbegin [] "html.head",
      Event.textE "Chapter Two" "html.head.title",
      Event.tagE "title" TagType.tend [] "html.head",
      Event.tagE "head" TagType.tend [] "html",
      Event.tagE "html" TagType.tend [] ""] ∧
    (∀ (mid bookpath plang : String) (tm tm' : List (String × String))
        (etypemap : List (String × (String × String × String)))
        (E3 legacyFix : Bool) (evs : List Event),
      titleSafeB evs = true →
      convert_xhtml mid bookpath plang tm etypemap E3 legacyFix evs
        = convert_xhtml mid bookpath plang tm' etypemap E3 legacyFix evs) := by
  constructor
  · rfl
  · intro mid bookpath plang tm tm' etypemap E3 legacyFix evs h
    unfold convert_xhtml
    exact conv_go_tm_indep mid bookpath plang _ _ _ E3 legacyFix evs none 0 tm tm' h

/-- Witness for C9 at a concrete document with a non-empty title. -/
theorem C9_title_backfill_witness :
    convert_xhtml "m" "doc" "en" [("doc", "X")] [] true false fidC6good
      = convert_xhtml "m" "doc" "en" [] [] true false fidC6good :=
  C9_title_backfill.2 "m" "doc" "en" [("doc", "X")] [] [] true false fidC6good
    (by decide)

theorem asString_toList (s : String) : s.toList.asString = s := rfl

theorem toList_asString (l : List Char) : (l.asString).toList = l := rfl

theorem replaceFuel_nil (pat rep : List Char) (f : Nat) :
    replaceFuel pat rep f [] = [] := by
  cases f <;> rfl

theorem rf_step_nomatch (pat rep : List Char) (c : Char) (cs : List Char)
    (f : Nat) (h : pat.isPrefixOf (c :: cs) = false) :
    replaceFuel pat rep (f + 1) (c :: cs) = c :: replaceFuel pat rep f cs := by
  simp [replaceFuel, h]

theorem replaceFuel_congr (pat rep : List Char) (hp : pat ≠ []) :
    ∀ (n f : Nat) (s : List Char), s.length ≤ n → s.length ≤ f →
    replaceFuel pat rep f s = replaceFuel pat rep s.length s := by
  intro n
  induction n with
  | zero =>
    intro f s hn _
    have : s = [] := List.length_eq_zero.mp (Nat.le_zero.mp hn)
    subst this
    simp [replaceFuel_nil]
  | succ m ih =>
    intro f s hn hf
    cases s with
    | nil => simp [replaceFuel_nil]
    | cons c cs =>
      have hL : (c :: cs).length = cs.length + 1 := rfl
      cases f with
      | zero => simp at hf
      | succ g =>
        rw [hL]
        by_cases hpre : pat.isPrefixOf (c :: cs) = true
        · have hd : ((c :: cs).drop pat.length).length ≤ cs.length := by
            have hp1 : 1 ≤ pat.length := by
              cases pat with
              | nil => exact absurd rfl hp
              | cons a b => simp
            simp [List.length_drop]
            omega
          rw [show replaceFuel pat rep (g+1) (c :: cs)
              = rep ++ replaceFuel pat rep g ((c :: cs).drop pat.length) from by
            simp [replaceFuel, hpre]]
          rw [show replaceFuel pat rep (cs.length + 1) (c :: cs)
              = rep ++ replaceFuel pat rep cs.length ((c :: cs).drop pat.length) from by
            simp [replaceFuel, hpre]]
          rw [ih g _ (by omega) (by omega), ih cs.length _ (by omega) (by omega)]
        · rw [Bool.not_eq_true] at hpre
          rw [rf_step_nomatch _ _ _ _ _ hpre, rf_step_nomatch _ _ _ _ _ hpre]
          rw [ih g cs (by omega) (by omega), ih cs.length cs (by omega) (by omega)]

theorem atomMap_append (g : Char → List Char) (a b : List Char) :
    atomMap g (a ++ b) = atomMap g a ++ atomMap g b := by
  induction a with
  | nil => rfl
  | cons c cs ih => simp [atomMap, ih]

theorem atomMap_comp (g f : Char → List Char) (s : List Char) :
    atomMap g (atomMap f s) = atomMap (fun c => atomMap g (f c)) s := by
  induction s with
  | nil => rfl
  | cons c cs ih => simp [atomMap, atomMap_append, ih]

theorem replace_single_char (ch : Char) (rep : List Char) (s : List Char) :
    replaceFuel [ch] rep s.length s
      = atomMap (fun c => if c == ch then rep else [c]) s := by
  induction s with
  | nil => rfl
  | cons c cs ih =>
    rw [show (c :: cs).length = cs.length + 1 from rfl]
    by_cases hc : (c == ch) = true
    · have he : c = ch := by simpa using hc
      subst he
      rw [show replaceFuel [c] rep (cs.length + 1) (c :: cs)
          = rep ++ replaceFuel [c] rep cs.length cs from by
        simp [replaceFuel, List.isPrefixOf]]
      simp [atomMap, ih]
    · rw [Bool.not_eq_true] at hc
      have hcn : c ≠ ch := by simpa using hc
      rw [rf_step_nomatch _ _ _ _ _
        (by simp [List.isPrefixOf, beq_eq_false_iff_ne]; exact fun he => hcn he.symm)]
      simp [atomMap, ih, hc]

theorem encAmp_char (c : Char) :
    (fun c => if c == '&' then "&amp;".toList else [c]) c = encAmp c := rfl

theorem gLt_encAmp (c : Char) :
    atomMap (fun c => if c == '<' then "&lt;".toList else [c]) (encAmp c)
      = encLt c := by
  by_cases h : (c == '&') = true
  · have he : c = '&' := by simpa using h
    subst he
    rfl
  · rw [Bool.not_eq_true] at h
    simp only [encAmp, encLt, h, Bool.false_eq_true, if_false]
    by_cases h2 : (c == '<') = true
    · have he : c = '<' := by simpa using h2
      subst he
      rfl
    · rw [Bool.not_eq_true] at h2
      simp [atomMap, h2, h]

theorem gGt_encLt (c : Char) :
    atomMap (fun c => if c == '>' then "&gt;".toList else [c]) (encLt c)
      = encGt c := by
  by_cases h : (c == '&') = true
  · have he : c = '&' := by simpa using h
    subst he
    rfl
  · rw [Bool.not_eq_true] at h
    by_cases h2 : (c == '<') = true
    · have he : c = '<' := by simpa using h2
      subst he
      rfl
    · rw [Bool.not_eq_true] at h2
      by_cases h3 : (c == '>') = true
      · have he : c = '>' := by simpa using h3
        subst he
        rfl
      · rw [Bool.not_eq_true] at h3
        have h3' : c ≠ '>' := by simpa using h3
        simp [encLt, encGt, encAmp, atomMap, h, h2, h3, h3']

theorem gQ_encGt (c : Char) :
    atomMap (fun c => if c == '"' then "&quot;".toList else [c]) (encGt c)
      = encAll c := by
  by_cases h : (c == '&') = true
  · have he : c = '&' := by simpa using h
    subst he
    rfl
  · rw [Bool.not_eq_true] at h
    by_cases h2 : (c == '<') = true
    · have he : c = '<' := by simpa using h2
      subst he
      rfl
    · rw [Bool.not_eq_true] at h2
      by_cases h3 : (c == '>') = true
      · have he : c = '>' := by simpa using h3
        subst he
        rfl
      · rw [Bool.not_eq_true] at h3
        by_cases h4 : (c == '"') = true
        · have he : c = '"' := by simpa using h4
          subst he
          rfl
        · rw [Bool.not_eq_true] at h4
          have h4' : c ≠ '"' := by simpa using h4
          simp [encLt, encGt, encAll, encAmp, atomMap, h, h2, h3, h4, h4']

theorem atomMap_congr (f g : Char → List Char) (h : ∀ c, f c = g c)
    (s : List Char) : atomMap f s = atomMap g s := by
  induction s with
  | nil => rfl
  | cons c cs ih => simp [atomMap, h, ih]

theorem xmlencode_atom (s : String) :
    xmlencode (some s) = (atomMap encAll s.toList).asString := by
  have e1 : pyReplace s "&" "&amp;" = (atomMap encAmp s.toList).asString := by
    unfold pyReplace
    rw [show ("&".toList) = ['&'] from rfl, replace_single_char]
    rfl
  have e2 : pyReplace (pyReplace s "&" "&amp;") "<" "&lt;"
      = (atomMap encLt s.toList).asString := by
    rw [e1]
    unfold pyReplace
    rw [show ("<".toList) = ['<'] from rfl, toList_asString, replace_single_char,
      atomMap_comp, atomMap_congr _ _ gLt_encAmp]
  have e3 : pyReplace (pyReplace (pyReplace s "&" "&amp;") "<" "&lt;") ">" "&gt;"
      = (atomMap encGt s.toList).asString := by
    rw [e2]
    unfold pyReplace
    rw [show (">".toList) = ['>'] from rfl, toList_asString, replace_single_char,
      atomMap_comp, atomMap_congr _ _ gGt_encLt]
  show pyReplace
      (pyReplace (pyReplace (pyReplace s "&" "&amp;") "<" "&lt;") ">" "&gt;")
      "\"" "&quot;" = _
  rw [e3]
  unfold pyReplace
  rw [show ("\"".toList) = ['"'] from rfl, toList_asString, replace_single_char,
    atomMap_comp, atomMap_congr _ _ gQ_encGt]

theorem q_skip_amp (f : Nat) (t : List Char) :
    replaceFuel "&quot;".toList ['"'] (f + 5) ("&amp;".toList ++ t)
      = "&amp;".toList ++ replaceFuel "&quot;".toList ['"'] f t := rfl

theorem q_skip_lt (f : Nat) (t : List Char) :
    replaceFuel "&quot;".toList ['"'] (f + 4) ("&lt;".toList ++ t)
      = "&lt;".toList ++ replaceFuel "&quot;".toList ['"'] f t := rfl

theorem q_skip_gt (f : Nat) (t : List Char) :
    replaceFuel "&quot;".toList ['"'] (f + 4) ("&gt;".toList ++ t)
      = "&gt;".toList ++ replaceFuel "&quot;".toList ['"'] f t := rfl

theorem rf_step_match (pat rep : List Char) (c : Char) (cs : List Char)
    (f : Nat) (h : pat.isPrefixOf (c :: cs) = true) :
    replaceFuel pat rep (f + 1) (c :: cs)
      = rep ++ replaceFuel pat rep f ((c :: cs).drop pat.length) := by
  simp [replaceFuel, h]

theorem q_match (f : Nat) (t : List Char) :
    replaceFuel "&quot;".toList ['"'] (f + 1) ("&quot;".toList ++ t)
      = '"' :: replaceFuel "&quot;".toList ['"'] f t := by
  have hc : ("&quot;".toList).isPrefixOf ('&':: 'q':: 'u':: 'o':: 't':: ';'::t) = true := by
    show (('&':: 'q':: 'u':: 'o':: 't':: ';'::[] : List Char)).isPrefixOf _ = true
    simp [List.isPrefixOf_cons₂, List.isPrefixOf_nil_left]
  rw [show ("&quot;".toList ++ t : List Char) = '&':: 'q':: 'u':: 'o':: 't':: ';'::t
    from rfl]
  rw [rf_step_match _ _ _ _ _ hc]
  rfl

theorem g_skip_amp (f : Nat) (t : List Char) :
    replaceFuel "&gt;".toList ['>'] (f + 5) ("&amp;".toList ++ t)
      = "&amp;".toList ++ replaceFuel "&gt;".toList ['>'] f t := rfl

theorem g_skip_lt (f : Nat) (t : List Char) :
    replaceFuel "&gt;".toList ['>'] (f + 4) ("&lt;".toList ++ t)
      = "&lt;".toList ++ replaceFuel "&gt;".toList ['>'] f t := rfl

theorem g_match (f : Nat) (t : List Char) :
    replaceFuel "&gt;".toList ['>'] (f + 1) ("&gt;".toList ++ t)
      = '>' :: replaceFuel "&gt;".toList ['>'] f t := by
  have hc : ("&gt;".toList).isPrefixOf ('&':: 'g':: 't':: ';'::t) = true := by
    show (('&':: 'g':: 't':: ';'::[] : List Char)).isPrefixOf _ = true
    simp [List.isPrefixOf_cons₂, List.isPrefixOf_nil_left]
  rw [show ("&gt;".toList ++ t : List Char) = '&':: 'g':: 't':: ';'::t from rfl]
  rw [rf_step_match _ _ _ _ _ hc]
  rfl

theorem l_skip_amp (f : Nat) (t : List Char) :
    replaceFuel "&lt;".toList ['<'] (f + 5) ("&amp;".toList ++ t)
      = "&amp;".toList ++ replaceFuel "&lt;".toList ['<'] f t := rfl

theorem l_match (f : Nat) (t : List Char) :
    replaceFuel "&lt;".toList ['<'] (f + 1) ("&lt;".toList ++ t)
      = '<' :: replaceFuel "&lt;".toList ['<'] f t := by
  have hc : ("&lt;".toList).isPrefixOf ('&':: 'l':: 't':: ';'::t) = true := by
    show (('&':: 'l':: 't':: ';'::[] : List Char)).isPrefixOf _ = true
    simp [List.isPrefixOf_cons₂, List.isPrefixOf_nil_left]
  rw [show ("&lt;".toList ++ t : List Char) = '&':: 'l':: 't':: ';'::t from rfl]
  rw [rf_step_match _ _ _ _ _ hc]
  rfl

theorem a_match (f : Nat) (t : List Char) :
    replaceFuel "&amp;".toList ['&'] (f + 1) ("&amp;".toList ++ t)
      = '&' :: replaceFuel "&amp;".toList ['&'] f t := by
  have hc : ("&amp;".toList).isPrefixOf ('&':: 'a':: 'm':: 'p':: ';'::t) = true := by
    show (('&':: 'a':: 'm':: 'p':: ';'::[] : List Char)).isPrefixOf _ = true
    simp [List.isPrefixOf_cons₂, List.isPrefixOf_nil_left]
  rw [show ("&amp;".toList ++ t : List Char) = '&':: 'a':: 'm':: 'p':: ';'::t from rfl]
  rw [rf_step_match _ _ _ _ _ hc]
  rfl

theorem atomMap_id (s : List Char) : atomMap (fun c => [c]) s = s := by
  induction s with
  | nil => rfl
  | cons c cs ih => simp [atomMap, ih]

theorem dec_quot (s : List Char) :
    replaceFuel "&quot;".toList ['"'] (atomMap encAll s).length (atomMap encAll s)
      = atomMap encGt s := by
  induction s with
  | nil => rfl
  | cons c cs ih =>
    by_cases h1 : c = '&'
    · subst h1
      rw [show atomMap encAll ('&' :: cs)
          = "&amp;".toList ++ atomMap encAll cs from rfl]
      rw [show ("&amp;".toList ++ atomMap encAll cs).length
          = (atomMap encAll cs).length + 5 from by
        show ('&':: 'a':: 'm':: 'p':: ';'::(atomMap encAll cs)).length = _
        simp [List.length_cons]]
      rw [q_skip_amp, ih]
      rfl
    · by_cases h2 : c = '<'
      · subst h2
        rw [show atomMap encAll ('<' :: cs)
            = "&lt;".toList ++ atomMap encAll cs from rfl]
        rw [show ("&lt;".toList ++ atomMap encAll cs).length
            = (atomMap encAll cs).length + 4 from by
          show ('&':: 'l':: 't':: ';'::(atomMap encAll cs)).length = _
          simp [List.length_cons]]
        rw [q_skip_lt, ih]
        rfl
      · by_cases h3 : c = '>'
        · subst h3
          rw [show atomMap encAll ('>' :: cs)
              = "&gt;".toList ++ atomMap encAll cs from rfl]
          rw [show ("&gt;".toList ++ atomMap encAll cs).length
              = (atomMap encAll cs).length + 4 from by
            show ('&':: 'g':: 't':: ';'::(atomMap encAll cs)).length = _
            simp [List.length_cons]]
          rw [q_skip_gt, ih]
          rfl
        · by_cases h4 : c = '"'
          · subst h4
            rw [show atomMap encAll ('"' :: cs)
                = "&quot;".toList ++ atomMap encAll cs from rfl]
            rw [show ("&quot;".toList ++ atomMap encAll cs).length
                = ((atomMap encAll cs).length + 5) + 1 from by
              show ('&':: 'q':: 'u':: 'o':: 't':: ';'::(atomMap encAll cs)).length = _
              simp [List.length_cons]]
            rw [q_match]
            rw [replaceFuel_congr _ _ (by decide)
              ((atomMap encAll cs).length + 5) ((atomMap encAll cs).length + 5)
              (atomMap encAll cs) (by omega) (by omega)]
            rw [ih]
            rfl
          · have hAtom : atomMap encAll (c :: cs) = c :: atomMap encAll cs := by
              simp [atomMap, encAll, encGt, encLt, encAmp,
                beq_eq_false_iff_ne.mpr h1, beq_eq_false_iff_ne.mpr h2,
                beq_eq_false_iff_ne.mpr h3, beq_eq_false_iff_ne.mpr h4]
            rw [hAtom]
            rw [show (c :: atomMap encAll cs).length
                = (atomMap encAll cs).length + 1 from rfl]
            rw [rf_step_nomatch _ _ _ _ _ (by
              show (('&':: 'q':: 'u':: 'o':: 't':: ';'::[] : List Char)).isPrefixOf _ = false
              simp [List.isPrefixOf_cons₂,
                beq_eq_false_iff_ne.mpr (Ne.symm h1)])]
            rw [ih]
            simp [atomMap, encGt, encLt, encAmp, beq_eq_false_iff_ne.mpr h1,
              beq_eq_false_iff_ne.mpr h2, beq_eq_false_iff_ne.mpr h3]

theorem dec_gt (s : List Char) :
    replaceFuel "&gt;".toList ['>'] (atomMap encGt s).length (atomMap encGt s)
      = atomMap encLt s := by
  induction s with
  | nil => rfl
  | cons c cs ih =>
    by_cases h1 : c = '&'
    · subst h1
      rw [show atomMap encGt ('&' :: cs)
          = "&amp;".toList ++ atomMap encGt cs from rfl]
      rw [show ("&amp;".toList ++ atomMap encGt cs).length
          = (atomMap encGt cs).length + 5 from by
        show ('&':: 'a':: 'm':: 'p':: ';'::(atomMap encGt cs)).length = _
        simp [List.length_cons]]
      rw [g_skip_amp, ih]
      rfl
    · by_cases h2 : c = '<'
      · subst h2
        rw [show atomMap encGt ('<' :: cs)
            = "&lt;".toList ++ atomMap encGt cs from rfl]
        rw [show ("&lt;".toList ++ atomMap encGt cs).length
            = (atomMap encGt cs).length + 4 from by
          show ('&':: 'l':: 't':: ';'::(atomMap encGt cs)).length = _
          simp [List.length_cons]]
        rw [g_skip_lt, ih]
        rfl
      · by_cases h3 : c = '>'
        · subst h3
          rw [show atomMap encGt ('>' :: cs)
              = "&gt;".toList ++ atomMap encGt cs from rfl]
          rw [show ("&gt;".toList ++ atomMap encGt cs).length
              = ((atomMap encGt cs).length + 3) + 1 from by
            show ('&':: 'g':: 't':: ';'::(atomMap encGt cs)).length = _
            simp [List.length_cons]]
          rw [g_match]
          rw [replaceFuel_congr _ _ (by decide)
            ((atomMap encGt cs).length + 3) ((atomMap encGt cs).length + 3)
            (atomMap encGt cs) (by omega) (by omega)]
          rw [ih]
          rfl
        · have hAtom : atomMap encGt (c :: cs) = c :: atomMap encGt cs := by
            simp [atomMap, encGt, encLt, encAmp,
              beq_eq_false_iff_ne.mpr h1, beq_eq_false_iff_ne.mpr h2,
              beq_eq_false_iff_ne.mpr h3]
          rw [hAtom]
          rw [show (c :: atomMap encGt cs).length
              = (atomMap encGt cs).length + 1 from rfl]
          rw [rf_step_nomatch _ _ _ _ _ (by
            show (('&':: 'g':: 't':: ';'::[] : List Char)).isPrefixOf _ = false
            simp [List.isPrefixOf_cons₂,
              beq_eq_false_iff_ne.mpr (Ne.symm h1)])]
          rw [ih]
          simp [atomMap, encLt, encAmp, beq_eq_false_iff_ne.mpr h1,
            beq_eq_false_iff_ne.mpr h2]

theorem dec_lt (s : List Char) :
    replaceFuel "&lt;".toList ['<'] (atomMap encLt s).length (atomMap encLt s)
      = atomMap encAmp s := by
  induction s with
  | nil => rfl
  | cons c cs ih =>
    by_cases h1 : c = '&'
    · subst h1
      rw [show atomMap encLt ('&' :: cs)
          = "&amp;".toList ++ atomMap encLt cs from rfl]
      rw [show ("&amp;".toList ++ atomMap encLt cs).length
          = (atomMap encLt cs).length + 5 from by
        show ('&':: 'a':: 'm':: 'p':: ';'::(atomMap encLt cs)).length = _
        simp [List.length_cons]]
      rw [l_skip_amp, ih]
      rfl
    · by_cases h2 : c = '<'
      · subst h2
        rw [show atomMap encLt ('<' :: cs)
            = "&lt;".toList ++ atomMap encLt cs from rfl]
        rw [show ("&lt;".toList ++ atomMap encLt cs).length
            = ((atomMap encLt cs).length + 3) + 1 from by
          show ('&':: 'l':: 't':: ';'::(atomMap encLt cs)).length = _
          simp [List.length_cons]]
        rw [l_match]
        rw [replaceFuel_congr _ _ (by decide)
          ((atomMap encLt cs).length + 3) ((atomMap encLt cs).length + 3)
          (atomMap encLt cs) (by omega) (by omega)]
        rw [ih]
        rfl
      · have hAtom : atomMap encLt (c :: cs) = c :: atomMap encLt cs := by
          simp [atomMap, encLt, encAmp,
            beq_eq_false_iff_ne.mpr h1, beq_eq_false_iff_ne.mpr h2]
        rw [hAtom]
        rw [show (c :: atomMap encLt cs).length
            = (atomMap encLt cs).length + 1 from rfl]
        rw [rf_step_nomatch _ _ _ _ _ (by
          show (('&':: 'l':: 't':: ';'::[] : List Char)).isPrefixOf _ = false
          simp [List.isPrefixOf_cons₂,
            beq_eq_false_iff_ne.mpr (Ne.symm h1)])]
        rw [ih]
        simp [atomMap, encAmp, beq_eq_false_iff_ne.mpr h1]

theorem dec_amp (s : List Char) :
    replaceFuel "&amp;".toList ['&'] (atomMap encAmp s).length (atomMap encAmp s)
      = s := by
  induction s with
  | nil => rfl
  | cons c cs ih =>
    by_cases h1 : c = '&'
    · subst h1
      rw [show atomMap encAmp ('&' :: cs)
          = "&amp;".toList ++ atomMap encAmp cs from rfl]
      rw [show ("&amp;".toList ++ atomMap encAmp cs).length
          = ((atomMap encAmp cs).length + 4) + 1 from by
        show ('&':: 'a':: 'm':: 'p':: ';'::(atomMap encAmp cs)).length = _
        simp [List.length_cons]]
      rw [a_match]
      rw [replaceFuel_congr _ _ (by decide)
        ((atomMap encAmp cs).length + 4) ((atomMap encAmp cs).length + 4)
        (atomMap encAmp cs) (by omega) (by omega)]
      rw [ih]
    · have hAtom : atomMap encAmp (c :: cs) = c :: atomMap encAmp cs := by
        simp [atomMap, encAmp, beq_eq_false_iff_ne.mpr h1]
      rw [hAtom]
      rw [show (c :: atomMap encAmp cs).length
          = (atomMap encAmp cs).length + 1 from rfl]
      rw [rf_step_nomatch _ _ _ _ _ (by
        show (('&':: 'a':: 'm':: 'p':: ';'::[] : List Char)).isPrefixOf _ = false
        simp [List.isPrefixOf_cons₂,
          beq_eq_false_iff_ne.mpr (Ne.symm h1)])]
      rw [ih]

/-- C10: XML encode/decode round-trip.  For every string s,
`xmldecode (xmlencode s) = s`: the encoder replaces the ampersand first and
then the angle brackets and double quote, the decoder applies the inverse
replacements in the reverse order with the ampersand last, and every
ampersand in an encoded string opens exactly one entity, so each decoding
pass restores exactly the characters its entity encodes. -/
theorem C10_xml_roundtrip (s : String) :
    xmldecode (some (xmlencode (some s))) = s := by
  rw [xmlencode_atom]
  have d1 : pyReplace ((atomMap encAll s.toList).asString) "&quot;" "\""
      = (atomMap encGt s.toList).asString := by
    unfold pyReplace
    rw [toList_asString, show ("\"".toList) = ['"'] from rfl, dec_quot]
  have d2 : pyReplace ((atomMap encGt s.toList).asString) "&gt;" ">"
      = (atomMap encLt s.toList).asString := by
    unfold pyReplace
    rw [toList_asString, show (">".toList) = ['>'] from rfl, dec_gt]
  have d3 : pyReplace ((atomMap encLt s.toList).asString) "&lt;" "<"
      = (atomMap encAmp s.toList).asString := by
    unfold pyReplace
    rw [toList_asString, show ("<".toList) = ['<'] from rfl, dec_lt]
  have d4 : pyReplace ((atomMap encAmp s.toList).asString) "&amp;" "&"
      = s := by
    unfold pyReplace
    rw [toList_asString, show ("&".toList) = ['&'] from rfl, dec_amp,
      asString_toList]
  show pyReplace (pyReplace (pyReplace (pyReplace
      ((atomMap encAll s.toList).asString) "&quot;" "\"") "&gt;" ">")
      "&lt;" "<") "&amp;" "&" = s
  rw [d1, d2, d3, d4]

theorem stripL_of_head (c : Char) (cs : List Char) (h : isPyWs c = false) :
    stripL (c :: cs) = c :: cs := by
  simp [stripL, h]

theorem stripL_shape (l : List Char) :
    stripL l = [] ∨ ∃ c cs, stripL l = c :: cs ∧ isPyWs c = false := by
  induction l with
  | nil => exact Or.inl rfl
  | cons c cs ih =>
    by_cases h : isPyWs c = true
    · simpa [stripL, h] using ih
    · rw [Bool.not_eq_true] at h
      exact Or.inr ⟨c, cs, stripL_of_head c cs h, h⟩

theorem stripL_stripL (l : List Char) : stripL (stripL l) = stripL l := by
  rcases stripL_shape l with h | ⟨c, cs, h, hw⟩
  · rw [h]; rfl
  · rw [h, stripL_of_head _ _ hw]

theorem stripL_drop (l : List Char) : ∃ k, stripL l = l.drop k := by
  induction l with
  | nil => exact ⟨0, rfl⟩
  | cons c cs ih =>
    by_cases h : isPyWs c = true
    · obtain ⟨k, hk⟩ := ih
      exact ⟨k + 1, by simpa [stripL, h] using hk⟩
    · rw [Bool.not_eq_true] at h
      exact ⟨0, by simp [stripL_of_head _ _ h]⟩

theorem stripL_of_all (l : List Char) (h : l.all (fun c => !isPyWs c) = true) :
    stripL l = l := by
  cases l with
  | nil => rfl
  | cons c cs =>
    simp [List.all_cons] at h
    exact stripL_of_head c cs (by simp [h.1])

theorem pyStrip_of_all (s : String)
    (h : s.toList.all (fun c => !isPyWs c) = true) : pyStrip s = s := by
  unfold pyStrip
  rw [stripL_of_all _ h, stripL_of_all, List.reverse_reverse, asString_toList]
  simpa using h

theorem pyStrip_isTok (s : String) (h : isTok s = true) : pyStrip s = s := by
  rw [isTok, Bool.and_eq_true] at h
  exact pyStrip_of_all s h.2

theorem pyStrip_idem (s : String) : pyStrip (pyStrip s) = pyStrip s := by
  unfold pyStrip
  rw [toList_asString]
  set a := stripL s.toList with ha
  set b := (stripL a.reverse).reverse with hb
  have hbrev : stripL b.reverse = b.reverse := by
    rw [hb, List.reverse_reverse, stripL_stripL]
  have hbpre : b <+: a := by
    obtain ⟨k, hk⟩ := stripL_drop a.reverse
    rw [hb, hk]
    have : a.reverse.drop k <:+ a.reverse := List.drop_suffix k a.reverse
    have h2 := this.reverse
    rwa [List.reverse_reverse] at h2
  have hbid : stripL b = b := by
    rcases stripL_shape s.toList with hA | ⟨c, cs, hA, hw⟩
    · rw [← ha] at hA
      have hbe : b = [] := by
        rw [hb, hA]
        rfl
      rw [hbe]
      rfl
    · rw [← ha] at hA
      cases hB : b with
      | nil => rfl
      | cons d ds =>
        have : d = c := by
          obtain ⟨t, ht⟩ := hbpre
          rw [hB] at ht
          rw [hA] at ht
          exact (List.cons.injEq _ _ _ _ ▸ ht).1
        subst this
        exact stripL_of_head _ _ hw
  rw [hbid, hbrev, List.reverse_reverse]

theorem toList_append (a b : String) : (a ++ b).toList = a.toList ++ b.toList :=
  rfl

theorem wsSplit_chunk (x : List Char) :
    ∀ (acc s : List Char), x.all (fun c => !isPyWs c) = true →
    wsSplit acc (x ++ s) = wsSplit (x.reverse ++ acc) s := by
  induction x with
  | nil => intro acc s _; simp
  | cons c cs ih =>
    intro acc s hx
    rw [List.all_cons, Bool.and_eq_true] at hx
    have hc : isPyWs c = false := by simpa using hx.1
    rw [List.cons_append]
    rw [show wsSplit acc (c :: (cs ++ s)) = wsSplit (c :: acc) (cs ++ s) from by
      simp [wsSplit, hc]]
    rw [ih (c :: acc) s hx.2]
    simp

theorem wsSplit_fin (x : List Char) (hne : x ≠ [])
    (hx : x.all (fun c => !isPyWs c) = true) :
    wsSplit [] x = [x.asString] := by
  rw [show wsSplit [] x = wsSplit [] (x ++ []) from by simp]
  rw [wsSplit_chunk x [] [] hx]
  rw [wsSplit]
  simp [hne]

theorem wsSplit_join : ∀ (l : List String), l ≠ [] → l.all isTok = true →
    wsSplit [] (spaceJoin l).toList = l := by
  intro l
  induction l with
  | nil => intro h _; exact absurd rfl h
  | cons x rest ih =>
    intro _ hl
    rw [List.all_cons, Bool.and_eq_true] at hl
    have hxt := hl.1
    rw [isTok, Bool.and_eq_true] at hxt
    have hxne : x.toList ≠ [] := by
      intro he
      apply (by simpa using hxt.1 : x ≠ "")
      have : x.toList.asString = ("" : String) := by rw [he]; rfl
      rwa [asString_toList] at this
    cases rest with
    | nil =>
      rw [show spaceJoin [x] = x from rfl]
      rw [wsSplit_fin x.toList hxne hxt.2, asString_toList]
    | cons y r =>
      rw [show spaceJoin (x :: y :: r) = x ++ " " ++ spaceJoin (y :: r) from rfl]
      rw [show ((x ++ " " ++ spaceJoin (y :: r)).toList)
          = x.toList ++ (' ' :: (spaceJoin (y :: r)).toList) from by
        rw [toList_append, toList_append]
        simp [List.append_assoc]]
      rw [wsSplit_chunk x.toList [] _ hxt.2]
      rw [show wsSplit (x.toList.reverse ++ []) (' ' :: (spaceJoin (y :: r)).toList)
          = x.toList.reverse.reverse.asString :: wsSplit [] (spaceJoin (y :: r)).toList
          from by
        rw [wsSplit]
        have hxd : x.data ≠ [] := hxne
        simp [isPyWs, hxd]]
      rw [List.reverse_reverse, asString_toList]
      rw [ih (by simp) hl.2]

theorem join_head (l : List String) (hne : l ≠ []) (hl : l.all isTok = true) :
    ∃ c cs, (spaceJoin l).toList = c :: cs ∧ isPyWs c = false := by
  cases l with
  | nil => exact absurd rfl hne
  | cons x rest =>
    rw [List.all_cons, Bool.and_eq_true] at hl
    rw [isTok, Bool.and_eq_true] at hl
    obtain ⟨⟨hxne, hxw⟩, _⟩ := hl
    have hxd : x.toList ≠ [] := by
      intro he
      apply (by simpa using hxne : x ≠ "")
      have : x.toList.asString = ("" : String) := by rw [he]; rfl
      rwa [asString_toList] at this
    cases hx : x.toList with
    | nil => exact absurd hx hxd
    | cons c cs =>
      have hcw : isPyWs c = false := by
        have : c ∈ x.toList := by rw [hx]; exact List.mem_cons_self c cs
        have := List.all_eq_true.mp hxw c this
        simpa using this
      cases rest with
      | nil => exact ⟨c, cs, by rw [show spaceJoin [x] = x from rfl, hx], hcw⟩
      | cons y r =>
        refine ⟨c, cs ++ (' ' :: (spaceJoin (y :: r)).toList), ?_, hcw⟩
        rw [show spaceJoin (x :: y :: r) = x ++ " " ++ spaceJoin (y :: r) from rfl]
        rw [show ((x ++ " " ++ spaceJoin (y :: r)).toList)
            = x.toList ++ (' ' :: (spaceJoin (y :: r)).toList) from by
          rw [toList_append, toList_append]
          simp [List.append_assoc]]
        rw [hx]
        simp

theorem join_rev_head (l : List String) : l ≠ [] → l.all isTok = true →
    ∃ c cs, (spaceJoin l).toList.reverse = c :: cs ∧ isPyWs c = false := by
  induction l with
  | nil => intro h _; exact absurd rfl h
  | cons x rest ih =>
    intro _ hl
    rw [List.all_cons, Bool.and_eq_true] at hl
    obtain ⟨hx, hrest⟩ := hl
    rw [isTok, Bool.and_eq_true] at hx
    obtain ⟨hxne, hxw⟩ := hx
    have hxd : x.toList ≠ [] := by
      intro he
      apply (by simpa using hxne : x ≠ "")
      have : x.toList.asString = ("" : String) := by rw [he]; rfl
      rwa [asString_toList] at this
    cases rest with
    | nil =>
      rw [show spaceJoin [x] = x from rfl]
      cases hrx : x.toList.reverse with
      | nil => simp at hrx; exact absurd hrx hxd
      | cons c cs =>
        have hc : c ∈ x.toList := by
          rw [← List.mem_reverse, hrx]
          exact List.mem_cons_self c cs
        have := List.all_eq_true.mp hxw c hc
        exact ⟨c, cs, rfl, by simpa using this⟩
    | cons y r =>
      obtain ⟨c, cs, hrev, hcw⟩ := ih (by simp) hrest
      refine ⟨c, cs ++ (' ' :: x.toList.reverse), ?_, hcw⟩
      rw [show spaceJoin (x :: y :: r) = x ++ " " ++ spaceJoin (y :: r) from rfl]
      rw [show ((x ++ " " ++ spaceJoin (y :: r)).toList)
          = x.toList ++ (' ' :: (spaceJoin (y :: r)).toList) from by
        rw [toList_append, toList_append]
        simp [List.append_assoc]]
      rw [List.reverse_append]
      rw [show (' ' :: (spaceJoin (y :: r)).toList).reverse
          = (spaceJoin (y :: r)).toList.reverse ++ [' '] from by simp]
      rw [hrev]
      simp

theorem pyStrip_join (l : List String) (hne : l ≠ []) (hl : l.all isTok = true) :
    pyStrip (spaceJoin l) = spaceJoin l := by
  obtain ⟨c, cs, hh, hw⟩ := join_head l hne hl
  obtain ⟨d, ds, hr, hrw⟩ := join_rev_head l hne hl
  unfold pyStrip
  rw [hh, stripL_of_head _ _ hw, ← hh, hr, stripL_of_head _ _ hrw, ← hr]
  rw [List.reverse_reverse, asString_toList]

theorem parse_join (l : List String) (hne : l ≠ []) (hl : l.all isTok = true) :
    parse_attribute (some (spaceJoin l)) = l := by
  simp only [parse_attribute]
  rw [pyStrip_join l hne hl]
  cases l with
  | nil => exact absurd rfl hne
  | cons x rest =>
    have hlx := hl
    rw [List.all_cons, Bool.and_eq_true] at hlx
    obtain ⟨hx, hrest⟩ := hlx
    rw [isTok, Bool.and_eq_true] at hx
    cases rest with
    | nil =>
      rw [show spaceJoin [x] = x from rfl]
      have hnosp : x.toList.contains ' ' = false := by
        rw [List.contains_eq_any_beq]
        rw [Bool.eq_false_iff]
        intro hany
        rw [List.any_eq_true] at hany
        obtain ⟨c, hc, hbeq⟩ := hany
        have := List.all_eq_true.mp hx.2 c hc
        have hce : ' ' = c := by simpa using hbeq
        subst hce
        simp [isPyWs] at this
      rw [hnosp]
      simp [hx.1]
    | cons y r =>
      have hsp : (spaceJoin (x :: y :: r)).toList.contains ' ' = true := by
        rw [show spaceJoin (x :: y :: r) = x ++ " " ++ spaceJoin (y :: r) from rfl]
        rw [show ((x ++ " " ++ spaceJoin (y :: r)).toList)
            = x.toList ++ (' ' :: (spaceJoin (y :: r)).toList) from by
          rw [toList_append, toList_append]
          simp [List.append_assoc]]
        rw [List.contains_eq_any_beq, List.any_eq_true]
        exact ⟨' ', by simp, by simp⟩
      rw [hsp]
      simp only [if_true]
      exact wsSplit_join (x :: y :: r) (by simp) hl

theorem not_hasT_forall {α : Type} (m : List (String × α)) (k : String) :
    hasT m k = false ↔ ∀ kv ∈ m, kv.1 ≠ k := by
  induction m with
  | nil => simp [hasT, lookupT]
  | cons kv rest ih =>
    by_cases h : (kv.1 == k) = true
    · have hk : kv.1 = k := by simpa using h
      constructor
      · intro hf
        rw [hasT, lookupT, if_pos h] at hf
        simp at hf
      · intro hall
        exact absurd hk (hall kv (List.mem_cons_self kv rest))
    · rw [Bool.not_eq_true] at h
      rw [show hasT (kv :: rest) k = hasT rest k from by simp [hasT, lookupT, h]]
      constructor
      · intro hf x hx
        rcases List.mem_cons.mp hx with he | hm
        · subst he
          simpa using h
        · exact ih.mp hf x hm
      · intro hall
        exact ih.mpr (fun x hx => hall x (List.mem_cons_of_mem kv hx))

theorem hasT_append {α : Type} (a b : List (String × α)) (k : String) :
    hasT (a ++ b) k = (hasT a k || hasT b k) := by
  induction a with
  | nil => simp [hasT, lookupT]
  | cons kv rest ih =>
    by_cases h : (kv.1 == k) = true
    · simp [hasT, lookupT, h]
    · rw [Bool.not_eq_true] at h
      simp only [List.cons_append]
      rw [show hasT (kv :: (rest ++ b)) k = hasT (rest ++ b) k from by
        simp [hasT, lookupT, h]]
      rw [show hasT (kv :: rest) k = hasT rest k from by simp [hasT, lookupT, h]]
      exact ih

theorem setT_append_of_not_has {α : Type} (m : List (String × α)) (k : String)
    (v : α) (h : hasT m k = false) : setT m k v = m ++ [(k, v)] := by
  induction m with
  | nil => rfl
  | cons kv rest ih =>
    rw [not_hasT_forall] at h
    have hk : (kv.1 == k) = false := by
      have := h kv (List.mem_cons_self kv rest)
      simpa using this
    rw [show setT (kv :: rest) k v = kv :: setT rest k v from by simp [setT, hk]]
    rw [ih (by rw [not_hasT_forall]; intro x hx; exact h x (List.mem_cons_of_mem kv hx))]
    rfl

theorem rebuild_chunk (m : List (String × String)) :
    ∀ (acc : List (String × String)), keysND m = true →
    (∀ kv ∈ m, hasT acc kv.1 = false) →
    (∀ kv ∈ m, pyStrip kv.1 = kv.1) →
    m.foldl (fun nattr kv => setT nattr (pyStrip kv.1) kv.2) acc = acc ++ m := by
  induction m with
  | nil => intro acc _ _ _; simp
  | cons kv rest ih =>
    intro acc hnd hacc hstr
    rw [keysND, Bool.and_eq_true] at hnd
    rw [List.foldl_cons]
    rw [hstr kv (List.mem_cons_self kv rest)]
    rw [setT_append_of_not_has _ _ _ (hacc kv (List.mem_cons_self kv rest))]
    rw [show (kv.1, kv.2) = kv from rfl]
    rw [ih (acc ++ [kv]) hnd.2 ?_ ?_]
    · simp
    · intro x hx
      rw [hasT_append]
      rw [hacc x (List.mem_cons_of_mem kv hx)]
      have hx1 : x.1 ≠ kv.1 := by
        have := (not_hasT_forall rest kv.1).mp (by simpa using hnd.1)
        exact this x hx
      rw [show hasT [kv] x.1 = false from by
        rw [not_hasT_forall]
        intro y hy
        rw [List.mem_singleton] at hy
        subst hy
        exact fun he => hx1 he.symm]
      rfl
    · intro x hx
      exact hstr x (List.mem_cons_of_mem kv hx)

theorem rebuild_id (m : Attrs) (h : attrWF m = true) : stripAttrNames m = m := by
  unfold stripAttrNames
  split
  · rfl
  · rw [attrWF, Bool.and_eq_true] at h
    rw [rebuild_chunk m [] h.2 ?_ ?_]
    · rfl
    · intro kv _
      simp [hasT, lookupT]
    · intro kv hkv
      have := List.all_eq_true.mp h.1 kv hkv
      simpa using this

theorem lmInject_off (E3 : Bool) (lt fr et : String) (tt : TagType) (m : Attrs)
    (h : (lt == "id") = false) : lmInject E3 lt fr et tt m = m := by
  unfold lmInject
  rw [show (E3 && lt == "id" &&
      (tt == TagType.tsingle || tt == TagType.tbegin)) = false from by
    rw [h]
    simp]
  rfl

theorem xmlheaderFix_off (tt : TagType) (m : Attrs) :
    xmlheaderFix false tt m = m := rfl

theorem langInject_id (plang n : String) (tt : TagType) (m : Attrs)
    (h : (n == "html" && tt == TagType.tbegin) = true →
      lookupT m "lang" = some plang ∧ lookupT m "xml:lang" = some plang) :
    langInject plang n tt m = m := by
  unfold langInject
  by_cases hc : (n == "html" && tt == TagType.tbegin) = true
  · rw [if_pos hc]
    obtain ⟨h1, h2⟩ := h hc
    rw [setT_id_of_lookup _ _ _ h1, setT_id_of_lookup _ _ _ h2]
  · rw [if_neg hc]

theorem fold_add_id (n : String) (hh ha : Bool) (rv : List String) :
    ∀ (evals : List String),
    (evals.all (fun ept => match _role_from_etype ept n hh ha with
      | some r => rv.contains r
      | none => true)) = true →
    evals.foldl (fun rv2 ept => match _role_from_etype ept n hh ha with
      | some ariarole =>
        if !(rv2.contains ariarole) then rv2 ++ [ariarole] else rv2
      | none => rv2) rv = rv := by
  intro evals
  induction evals with
  | nil => intro _; rfl
  | cons e t ih =>
    intro hall
    rw [List.all_cons, Bool.and_eq_true] at hall
    rw [List.foldl_cons]
    cases hr : _role_from_etype e n hh ha with
    | some r =>
      have hc : rv.contains r = true := by
        have := hall.1
        rw [hr] at this
        simpa using this
      simp only [hr, hc, Bool.not_true, Bool.false_eq_true, if_false]
      exact ih hall.2
    | none =>
      simp only [hr]
      exact ih hall.2

theorem roleAug_id (E3 : Bool) (n : String) (tt : TagType) (m : Attrs)
    (h0 : (E3 && (tt == TagType.tbegin || tt == TagType.tsingle) &&
      hasT m "epub:type") = true → rolesStable n m = true) :
    roleAug E3 n tt m = m := by
  unfold roleAug
  by_cases hc : (E3 && (tt == TagType.tbegin || tt == TagType.tsingle) &&
      hasT m "epub:type") = true
  · rw [if_pos hc]
    have h := h0 hc
    rw [rolesStable, Bool.and_eq_true] at h
    dsimp only
    rw [fold_add_id n (hasT m "href") (hasT m "alt") _ _ h.1]
    by_cases hlen : (parse_attribute (some (getAD m "role" ""))).length > 0
    · rw [if_pos hlen]
      have h2 := h.2
      rw [Bool.or_eq_true] at h2
      rcases h2 with he | hl
      · rw [List.isEmpty_iff] at he
        rw [he] at hlen
        simp at hlen
      · exact setT_id_of_lookup _ _ _ (by simpa using hl)
    · rw [if_neg hlen]
  · rw [if_neg hc]

theorem conv_go_fid (mid bookpath plang : String) (tm : List (String × String))
    (lt fr et : String) (E3 : Bool) (hlt : (lt == "id") = false)
    (evs : List Event) :
    ∀ (mt : Option String) (c : Nat),
    evs.all (fun e =>
      evWF e && htmlLangOK plang e && roleOK E3 e && !isImgEv e) = true →
    titleSafeGo mt.isSome evs = true →
    conv_go mid bookpath plang tm lt fr et E3 false mt c evs = (evs, []) := by
  induction evs with
  | nil => intro mt c _ _; rfl
  | cons e rest ih =>
    intro mt c hall hsafe
    rw [List.all_cons, Bool.and_eq_true] at hall
    obtain ⟨he, hrest⟩ := hall
    rw [Bool.and_eq_true, Bool.and_eq_true, Bool.and_eq_true] at he
    obtain ⟨⟨⟨hwf, hlang⟩, hrole⟩, himgne⟩ := he
    cases e with
    | textE t p =>
      rw [titleSafeGo] at hsafe
      simp only [conv_go]
      have ht : (t == "") = false := by
        have : (t != "") = true := by simpa [evWF] using hwf
        simpa using this
      rw [show pushText t p = [Event.textE t p] from by simp [pushText, ht]]
      have hiso : (if subStrB "head" p && endsWithB p "title" && pyStrip t != ""
          then some t else mt).isSome
          = (mt.isSome ||
             (subStrB "head" p && endsWithB p "title" && pyStrip t != "")) := by
        by_cases hc :
            (subStrB "head" p && endsWithB p "title" && pyStrip t != "") = true
        · simp [hc]
        · rw [Bool.not_eq_true] at hc
          simp [hc]
      rw [ih _ c hrest (by rw [hiso]; exact hsafe)]
      rfl
    | tagE n tt a0 p =>
      rw [titleSafeGo] at hsafe
      have hWF : attrWF a0 = true := by simpa [evWF] using hwf
      have himgE : (n == "img" &&
          (tt == TagType.tsingle || tt == TagType.tbegin)) = false := by
        have : isImgEv (Event.tagE n tt a0 p) = false := by simpa using himgne
        simpa [isImgEv_tag] using this
      simp only [conv_go]
      rw [rebuild_id a0 hWF, lmInject_off _ _ _ _ _ _ hlt]
      rw [langInject_id plang n tt a0 (fun hc => by
        have := hlang
        simp only [htmlLangOK, hc, if_true] at this
        rw [Bool.and_eq_true] at this
        exact ⟨by simpa using this.1, by simpa using this.2⟩)]
      simp only [himgE, Bool.false_eq_true, if_false]
      rw [roleAug_id E3 n tt a0 (fun hc => by
        have := hrole
        simp only [roleOK, hc, if_true] at this
        exact this)]
      rw [xmlheaderFix_off]
      by_cases h1 : (n == "title" && tt == TagType.tsingle && subStrB "head" p) = true
      · rw [if_pos h1] at hsafe
        exact absurd hsafe (by simp)
      · rw [Bool.not_eq_true] at h1
        rw [if_neg (by simp [h1])] at hsafe
        by_cases h2 : (n == "title" && tt == TagType.tend && subStrB "head" p) = true
        · have hseen : mt.isSome = true := by
            by_contra hc
            rw [Bool.not_eq_true] at hc
            rw [if_pos (by simp [h2, hc])] at hsafe
            exact absurd hsafe (by simp)
          rw [if_neg (by simp [hseen])] at hsafe
          have hnone : mt.isNone = false := by
            cases mt
            · simp at hseen
            · rfl
          have hpre : (n == "title" && tt == TagType.tend && subStrB "head" p &&
              mt.isNone) = false := by
            simp [hnone]
          simp only [h1, hpre, Bool.false_eq_true, if_false]
          rw [ih _ c hrest hsafe]
          rfl
        · rw [Bool.not_eq_true] at h2
          rw [if_neg (by simp [h2])] at hsafe
          have hpre : (n == "title" && tt == TagType.tend && subStrB "head" p &&
              mt.isNone) = false := by
            rw [h2, Bool.false_and]
          simp only [h1, hpre, Bool.false_eq_true, if_false]
          rw [ih _ c hrest hsafe]
          rfl

/-- C6 counterexample: a document with no images, no landmark entry for its
path, and a head title holding non-whitespace text is nevertheless rewritten:
the missing language attributes are injected on the html begin tag, so the
output is not identical to the input. -/
theorem C6_fidelity_counterexample :
    noImgB fidC6evs = true ∧ titleSafeB fidC6evs = true ∧
    convert_xhtml "m" "doc" "en" [] [] true false fidC6evs ≠ (fidC6evs, []) :=
  ⟨by decide, by decide, by decide⟩

/-- C6 (amended): the rewriter is the identity, and records nothing, on a
document with no images, no landmark entry for its path, and a begin/end head
title whose non-whitespace text precedes every head-title end tag, provided
the document is already stable under the other rewrites: every html begin tag
carries both language attributes equal to the primary language, every tag with
an epub:type attribute already carries every role the engine would infer with
its role attribute normalised, attribute dicts have trimmed names and distinct
keys, text nodes are non-empty, and the legacy-fix flag is off. -/
theorem C6_fidelity_amended (mid bookpath plang : String)
    (tm : List (String × String))
    (etypemap : List (String × (String × String × String)))
    (E3 : Bool) (evs : List Event)
    (hlm : lookupT etypemap bookpath = none)
    (hall : evs.all (fun e =>
      evWF e && htmlLangOK plang e && roleOK E3 e && !isImgEv e) = true)
    (hsafe : titleSafeB evs = true) :
    convert_xhtml mid bookpath plang tm etypemap E3 false evs = (evs, []) := by
  show (let lrec := (lookupT etypemap bookpath).getD ("", "", "")
    conv_go mid bookpath plang tm lrec.1 lrec.2.1 lrec.2.2 E3 false
      none 0 evs) = (evs, [])
  rw [hlm]
  exact conv_go_fid mid bookpath plang tm "" "" "" E3 (by decide) evs
    none 0 hall hsafe

/-- C6 witness: the amended fidelity theorem applied to a concrete stable
document. -/
theorem C6_fidelity_amended_witness :
    convert_xhtml "m" "doc" "en" [] [] true false fidC6good
      = (fidC6good, []) :=
  C6_fidelity_amended "m" "doc" "en" [] [] true fidC6good
    (by decide) (by decide) (by decide)

theorem hasT_setT {α : Type} (m : List (String × α)) (k k2 : String) (v : α) :
    hasT (setT m k v) k2 = (hasT m k2 || (k2 == k)) := by
  by_cases h0 : k = k2
  · subst h0
    rw [hasT, lookupT_setT_self]
    simp
  · rw [hasT, lookupT_setT_ne m k k2 v h0, ← hasT]
    rw [show (k2 == k) = false from by simpa using fun he => h0 he.symm]
    simp

theorem keysND_setT {α : Type} (m : List (String × α)) (k : String) (v : α)
    (h : keysND m = true) : keysND (setT m k v) = true := by
  induction m with
  | nil => simp [setT, keysND, hasT, lookupT]
  | cons kv rest ih =>
    rw [keysND, Bool.and_eq_true] at h
    by_cases h0 : (kv.1 == k) = true
    · simp only [setT, h0, if_true, keysND, Bool.and_eq_true]
      exact ⟨h.1, h.2⟩
    · rw [Bool.not_eq_true] at h0
      simp only [setT, h0, Bool.false_eq_true, if_false, keysND, Bool.and_eq_true]
      refine ⟨?_, ih h.2⟩
      rw [hasT_setT]
      have h1 : hasT rest kv.1 = false := by simpa using h.1
      rw [h1, show (kv.1 == k) = false from h0]
      rfl

theorem allStrip_setT (m : Attrs) (k v : String) (hk : pyStrip k = k)
    (h : m.all (fun kv => pyStrip kv.1 == kv.1) = true) :
    (setT m k v).all (fun kv => pyStrip kv.1 == kv.1) = true := by
  induction m with
  | nil => simp [setT, hk]
  | cons kv rest ih =>
    rw [List.all_cons, Bool.and_eq_true] at h
    by_cases h0 : (kv.1 == k) = true
    · simp only [setT, h0, if_true, List.all_cons, Bool.and_eq_true]
      exact ⟨h.1, h.2⟩
    · rw [Bool.not_eq_true] at h0
      simp only [setT, h0, Bool.false_eq_true, if_false, List.all_cons,
        Bool.and_eq_true]
      exact ⟨h.1, ih h.2⟩

theorem attrWF_setT (m : Attrs) (k v : String) (hk : pyStrip k = k)
    (h : attrWF m = true) : attrWF (setT m k v) = true := by
  rw [attrWF, Bool.and_eq_true] at h
  rw [attrWF, Bool.and_eq_true]
  exact ⟨allStrip_setT m k v hk h.1, keysND_setT m k v h.2⟩

theorem setT_get_id (m : Attrs) (k : String) (h : hasT m k = true) :
    setT m k (getAD m k "") = m := by
  rw [hasT] at h
  cases hl : lookupT m k with
  | none => rw [hl] at h; simp at h
  | some v =>
    rw [getAD, hl]
    exact setT_id_of_lookup m k v hl

theorem lmInject_lookup_ne (E3 : Bool) (lt fr et : String) (tt : TagType)
    (m : Attrs) (k : String) (h : k ≠ "epub:type") :
    lookupT (lmInject E3 lt fr et tt m) k = lookupT m k := by
  unfold lmInject
  split
  · split
    · split
      · dsimp only
        split
        · exact lookupT_setT_ne _ _ _ _ (fun he => h he.symm)
        · rfl
      · rfl
    · rfl
  · rfl

theorem langInject_lookup_ne (plang n : String) (tt : TagType) (m : Attrs)
    (k : String) (h1 : k ≠ "lang") (h2 : k ≠ "xml:lang") :
    lookupT (langInject plang n tt m) k = lookupT m k := by
  unfold langInject
  split
  · rw [lookupT_setT_ne _ _ _ _ (fun he => h2 he.symm),
      lookupT_setT_ne _ _ _ _ (fun he => h1 he.symm)]
  · rfl

theorem attrWF_lmInject (E3 : Bool) (lt fr et : String) (tt : TagType)
    (m : Attrs) (h : attrWF m = true) :
    attrWF (lmInject E3 lt fr et tt m) = true := by
  unfold lmInject
  split
  · split
    · split
      · dsimp only
        split
        · exact attrWF_setT _ _ _ (by decide) h
        · exact h
      · exact h
    · exact h
  · exact h

theorem attrWF_langInject (plang n : String) (tt : TagType) (m : Attrs)
    (h : attrWF m = true) : attrWF (langInject plang n tt m) = true := by
  unfold langInject
  split
  · exact attrWF_setT _ _ _ (by decide) (attrWF_setT _ _ _ (by decide) h)
  · exact h

theorem attrWF_roleAug (E3 : Bool) (n : String) (tt : TagType) (m : Attrs)
    (h : attrWF m = true) : attrWF (roleAug E3 n tt m) = true := by
  unfold roleAug
  split
  · dsimp only
    split
    · exact attrWF_setT _ _ _ (by decide) h
    · exact h
  · exact h

theorem attrWF_preAttr (plang lt fr et n : String) (E3 : Bool) (tt : TagType)
    (a : Attrs) (h : attrWF a = true) :
    attrWF (preAttr plang lt fr et n E3 tt a) = true := by
  have hl : attrWF (langAttr plang lt fr et n E3 tt a) = true := by
    rw [langAttr, rebuild_id a h]
    exact attrWF_langInject _ _ _ _ (attrWF_lmInject _ _ _ _ _ _ h)
  unfold preAttr
  split
  · exact attrWF_setT _ _ _ (by decide) hl
  · exact hl

theorem attrWF_convAttr (plang lt fr et n : String) (E3 : Bool) (tt : TagType)
    (a : Attrs) (h : attrWF a = true) :
    attrWF (convAttr plang lt fr et n E3 tt a) = true :=
  attrWF_roleAug _ _ _ _ (attrWF_preAttr plang lt fr et n E3 tt a h)

theorem contains_of_mem {l : List String} {x : String} (h : x ∈ l) :
    l.contains x = true := by
  simpa [List.contains, List.elem_iff] using h

theorem lookupT_val_mem {α : Type} (m : List (String × α)) (k : String) (v : α)
    (h : lookupT m k = some v) : v ∈ m.map Prod.snd := by
  induction m with
  | nil => simp [lookupT] at h
  | cons kv rest ih =>
    rw [lookupT] at h
    by_cases h0 : (kv.1 == k) = true
    · rw [if_pos h0] at h
      injection h with h
      subst h
      simp
    · rw [if_neg (by simp [h0])] at h
      simp only [List.map_cons, List.mem_cons]
      exact Or.inr (ih h)

theorem roles_isTok (ept n : String) (hh ha : Bool) (r : String)
    (h : _role_from_etype ept n hh ha = some r) : isTok r = true := by
  unfold _role_from_etype at h
  cases hm : lookupT _epubtype_aria_map ept with
  | none => rw [hm] at h; exact absurd h (by simp)
  | some role =>
    rw [hm] at h
    dsimp only at h
    have hrr : r = role := by
      split at h
      · injection h with h; exact h.symm
      · split at h
        · split at h
          · injection h with h; exact h.symm
          · exact absurd h (by simp)
        · exact absurd h (by simp)
    subst hrr
    have hmem := lookupT_val_mem _ _ _ hm
    have hall : (_epubtype_aria_map.map Prod.snd).all isTok = true := by decide
    exact List.all_eq_true.mp hall _ hmem

theorem fold_mono (n : String) (hh ha : Bool) (x : String) :
    ∀ (evals rv : List String), x ∈ rv →
    x ∈ evals.foldl (fun rv2 ept =>
      match _role_from_etype ept n hh ha with
      | some ariarole =>
        if !(rv2.contains ariarole) then rv2 ++ [ariarole] else rv2
      | none => rv2) rv := by
  intro evals
  induction evals with
  | nil => intro rv h; exact h
  | cons e t ih =>
    intro rv h
    rw [List.foldl_cons]
    cases hr : _role_from_etype e n hh ha with
    | some r =>
      simp only [hr]
      by_cases hc : (rv.contains r) = true
      · simp only [hc, Bool.not_true, Bool.false_eq_true, if_false]
        exact ih _ h
      · rw [Bool.not_eq_true] at hc
        simp only [hc, Bool.not_false, if_true]
        exact ih _ (List.mem_append_left _ h)
    | none =>
      simp only [hr]
      exact ih _ h

theorem fold_post (n : String) (hh ha : Bool) (ept0 r : String)
    (hr : _role_from_etype ept0 n hh ha = some r) :
    ∀ (evals rv : List String), ept0 ∈ evals →
    r ∈ evals.foldl (fun rv2 ept =>
      match _role_from_etype ept n hh ha with
      | some ariarole =>
        if !(rv2.contains ariarole) then rv2 ++ [ariarole] else rv2
      | none => rv2) rv := by
  intro evals
  induction evals with
  | nil => intro rv h; exact absurd h (List.not_mem_nil ept0)
  | cons e t ih =>
    intro rv h
    rw [List.foldl_cons]
    rcases List.mem_cons.mp h with he | ht
    · subst he
      rw [hr]
      by_cases hc : (rv.contains r) = true
      · simp only [hc, Bool.not_true, Bool.false_eq_true, if_false]
        exact fold_mono n hh ha r t rv (by
          simpa [List.contains, List.elem_iff] using hc)
      · rw [Bool.not_eq_true] at hc
        simp only [hc, Bool.not_false, if_true]
        exact fold_mono n hh ha r t _ (List.mem_append_right _ (by simp))
    · cases hre : _role_from_etype e n hh ha with
      | some r2 =>
        simp only [hre]
        by_cases hc : (rv.contains r2) = true
        · simp only [hc, Bool.not_true, Bool.false_eq_true, if_false]
          exact ih _ ht
        · rw [Bool.not_eq_true] at hc
          simp only [hc, Bool.not_false, if_true]
          exact ih _ ht
      | none =>
        simp only [hre]
        exact ih _ ht

theorem fold_tok (n : String) (hh ha : Bool) :
    ∀ (evals rv : List String), rv.all isTok = true →
    (evals.foldl (fun rv2 ept =>
      match _role_from_etype ept n hh ha with
      | some ariarole =>
        if !(rv2.contains ariarole) then rv2 ++ [ariarole] else rv2
      | none => rv2) rv).all isTok = true := by
  intro evals
  induction evals with
  | nil => intro rv h; exact h
  | cons e t ih =>
    intro rv h
    rw [List.foldl_cons]
    cases hr : _role_from_etype e n hh ha with
    | some r =>
      simp only [hr]
      by_cases hc : (rv.contains r) = true
      · simp only [hc, Bool.not_true, Bool.false_eq_true, if_false]
        exact ih _ h
      · rw [Bool.not_eq_true] at hc
        simp only [hc, Bool.not_false, if_true]
        refine ih _ ?_
        rw [List.all_append, h, List.all_cons]
        simp [roles_isTok e n hh ha r hr]
    | none =>
      simp only [hr]
      exact ih _ h

theorem rolesStable_setT (n : String) (m : Attrs) (F : List String)
    (hne : F ≠ []) (htok : F.all isTok = true)
    (hpost : ∀ ept ∈ parse_attribute (some (getAD m "epub:type" "")),
      ∀ r, _role_from_etype ept n (hasT m "href") (hasT m "alt") = some r →
        r ∈ F) :
    rolesStable n (setT m "role" (spaceJoin F)) = true := by
  rw [rolesStable]
  have h1 : getAD (setT m "role" (spaceJoin F)) "epub:type" ""
      = getAD m "epub:type" "" := by
    rw [getAD, getAD, lookupT_setT_ne _ _ _ _ (by decide)]
  have h2 : hasT (setT m "role" (spaceJoin F)) "href" = hasT m "href" := by
    rw [hasT, hasT, lookupT_setT_ne _ _ _ _ (by decide)]
  have h3 : hasT (setT m "role" (spaceJoin F)) "alt" = hasT m "alt" := by
    rw [hasT, hasT, lookupT_setT_ne _ _ _ _ (by decide)]
  have h4 : getAD (setT m "role" (spaceJoin F)) "role" "" = spaceJoin F := by
    rw [getAD, lookupT_setT_self]
    rfl
  rw [h1, h2, h3, h4, parse_join F hne htok]
  rw [Bool.and_eq_true]
  constructor
  · rw [List.all_eq_true]
    intro ept hmem
    cases hr : _role_from_etype ept n (hasT m "href") (hasT m "alt") with
    | some r =>
      simp only [hr]
      exact contains_of_mem (hpost ept hmem r hr)
    | none => simp only [hr]
  · rw [lookupT_setT_self]
    simp

theorem rolesStable_nil (n : String) (m : Attrs)
    (hrv : parse_attribute (some (getAD m "role" "")) = [])
    (hpost : ∀ ept ∈ parse_attribute (some (getAD m "epub:type" "")),
      ∀ r, _role_from_etype ept n (hasT m "href") (hasT m "alt") = some r →
        False) :
    rolesStable n m = true := by
  rw [rolesStable]
  rw [hrv]
  rw [Bool.and_eq_true]
  constructor
  · rw [List.all_eq_true]
    intro ept hmem
    cases hr : _role_from_etype ept n (hasT m "href") (hasT m "alt") with
    | some r => exact (hpost ept hmem r hr).elim
    | none => simp only [hr]
  · simp

theorem roleAug_post (E3 : Bool) (n : String) (tt : TagType) (m : Attrs)
    (hwfr : wfVal (getAD m "role" "") = true)
    (hg : (E3 && (tt == TagType.tbegin || tt == TagType.tsingle) &&
      hasT m "epub:type") = true) :
    rolesStable n (roleAug E3 n tt m) = true := by
  rw [wfVal] at hwfr
  unfold roleAug
  rw [if_pos hg]
  dsimp only
  split
  next hlen =>
    apply rolesStable_setT
    · intro hF
      rw [hF] at hlen
      simp at hlen
    · exact fold_tok n (hasT m "href") (hasT m "alt") _ _ hwfr
    · intro ept hmem r hr
      exact fold_post n _ _ ept r hr _ _ hmem
  next hlen =>
    have hF : _ = ([] : List String) :=
      List.length_eq_zero.mp (Nat.eq_zero_of_not_pos hlen)
    apply rolesStable_nil
    · rcases hcase : parse_attribute (some (getAD m "role" "")) with _ | ⟨x, xs⟩
      · rfl
      · exfalso
        have hx : x ∈ parse_attribute (some (getAD m "role" "")) := by
          rw [hcase]
          simp
        have hmono := fold_mono n (hasT m "href") (hasT m "alt") x
          (parse_attribute (some (getAD m "epub:type" ""))) _ hx
        rw [hF] at hmono
        exact absurd hmono (List.not_mem_nil x)
    · intro ept hmem r hr
      have hp := fold_post n _ _ ept r hr _
        (parse_attribute (some (getAD m "role" ""))) hmem
      rw [hF] at hp
      exact absurd hp (List.not_mem_nil r)

theorem langAttr_lookup_vals (plang lt fr et n : String) (E3 : Bool)
    (tt : TagType) (a : Attrs) (k : String) (hwf : attrWF a = true)
    (h1 : k ≠ "epub:type") (h2 : k ≠ "lang") (h3 : k ≠ "xml:lang") :
    lookupT (langAttr plang lt fr et n E3 tt a) k = lookupT a k := by
  rw [langAttr, langInject_lookup_ne _ _ _ _ _ h2 h3,
    lmInject_lookup_ne _ _ _ _ _ _ _ h1, rebuild_id a hwf]

theorem preAttr_lookup_vals (plang lt fr et n : String) (E3 : Bool)
    (tt : TagType) (a : Attrs) (k : String) (hwf : attrWF a = true)
    (h1 : k ≠ "epub:type") (h2 : k ≠ "lang") (h3 : k ≠ "xml:lang")
    (h4 : k ≠ "alt") :
    lookupT (preAttr plang lt fr et n E3 tt a) k = lookupT a k := by
  rw [preAttr]
  split
  · rw [lookupT_setT_ne _ _ _ _ (fun he => h4 he.symm),
      langAttr_lookup_vals plang lt fr et n E3 tt a k hwf h1 h2 h3]
  · exact langAttr_lookup_vals plang lt fr et n E3 tt a k hwf h1 h2 h3

theorem convAttr_lookup_other (plang lt fr et n : String) (E3 : Bool)
    (tt : TagType) (a : Attrs) (k : String) (hwf : attrWF a = true)
    (h1 : k ≠ "epub:type") (h2 : k ≠ "lang") (h3 : k ≠ "xml:lang")
    (h4 : k ≠ "alt") (h5 : k ≠ "role") :
    lookupT (convAttr plang lt fr et n E3 tt a) k = lookupT a k := by
  rw [convAttr, roleAug_lookup_ne _ _ _ _ _ h5,
    preAttr_lookup_vals plang lt fr et n E3 tt a k hwf h1 h2 h3 h4]

theorem convAttr_lookup_ety (plang lt fr et n : String) (E3 : Bool)
    (tt : TagType) (a : Attrs) (hwf : attrWF a = true) :
    lookupT (convAttr plang lt fr et n E3 tt a) "epub:type"
      = lookupT (lmInject E3 lt fr et tt a) "epub:type" := by
  rw [convAttr, roleAug_lookup_ne _ _ _ _ _ (by decide), preAttr]
  have hla : lookupT (langAttr plang lt fr et n E3 tt a) "epub:type"
      = lookupT (lmInject E3 lt fr et tt a) "epub:type" := by
    rw [langAttr, langInject_lookup_ne _ _ _ _ _ (by decide) (by decide),
      rebuild_id a hwf]
  split
  · rw [lookupT_setT_ne _ _ _ _ (by decide), hla]
  · exact hla

theorem attrValsWF_parts (n : String) (tt : TagType) (a : Attrs) (p : String)
    (h : attrValsWF (Event.tagE n tt a p) = true) :
    wfVal (getAD a "epub:type" "") = true ∧ wfVal (getAD a "role" "") = true := by
  rw [show attrValsWF (Event.tagE n tt a p)
      = ((match lookupT a "epub:type" with
          | some v => wfVal v
          | none => true) &&
         (match lookupT a "role" with
          | some v => wfVal v
          | none => true)) from rfl, Bool.and_eq_true] at h
  constructor
  · cases hl : lookupT a "epub:type" with
    | none => rw [getAD, hl]; decide
    | some v =>
      rw [getAD, hl]
      have h1 := h.1
      rw [hl] at h1
      exact h1
  · cases hl : lookupT a "role" with
    | none => rw [getAD, hl]; decide
    | some v =>
      rw [getAD, hl]
      have h2 := h.2
      rw [hl] at h2
      exact h2

theorem lmInject_ety_contains (E3 : Bool) (lt fr et : String) (tt : TagType)
    (a : Attrs)
    (hg : (E3 && lt == "id" &&
      (tt == TagType.tsingle || tt == TagType.tbegin)) = true)
    (hid : lookupT a "id" = some fr)
    (hwfe : wfVal (getAD a "epub:type" "") = true)
    (htok : isTok et = true) :
    (parse_attribute
        (some (getAD (lmInject E3 lt fr et tt a) "epub:type" ""))).contains et
      = true := by
  unfold lmInject
  rw [if_pos hg, hid]
  dsimp only
  rw [show (fr == fr) = true from by simp]
  rw [if_pos rfl]
  by_cases hc :
      ((parse_attribute (some (getAD a "epub:type" ""))).contains et) = true
  · simp only [hc, Bool.not_true, Bool.false_eq_true, if_false]
  · rw [Bool.not_eq_true] at hc
    simp only [hc, Bool.not_false, if_true]
    rw [getAD, lookupT_setT_self]
    rw [show (some (spaceJoin (parse_attribute (some (getAD a "epub:type" ""))
        ++ [et]))).getD ""
      = spaceJoin (parse_attribute (some (getAD a "epub:type" "")) ++ [et])
      from rfl]
    rw [parse_join _ (by simp) (by
      rw [List.all_append]
      rw [wfVal] at hwfe
      rw [hwfe]
      simp [htok])]
    exact contains_of_mem (List.mem_append_right _ (by simp))

theorem convAttr_stable (plang lt fr et n p2 : String) (E3 : Bool)
    (tt tt2 : TagType) (a : Attrs)
    (hwf : attrWF a = true)
    (hwfe : wfVal (getAD a "epub:type" "") = true)
    (hwfr : wfVal (getAD a "role" "") = true)
    (hlmH : (lt == "id") = false ∨ isTok et = true)
    (hor : (tt2 == TagType.tsingle || tt2 == TagType.tbegin)
         = (tt == TagType.tsingle || tt == TagType.tbegin))
    (horb : (tt2 == TagType.tbegin || tt2 == TagType.tsingle)
         = (tt == TagType.tbegin || tt == TagType.tsingle))
    (hlg : (n == "html" && tt2 == TagType.tbegin)
         = (n == "html" && tt == TagType.tbegin))
    (hts : (n == "title" && tt2 == TagType.tsingle && subStrB "head" p2)
         = false) :
    stableEv plang lt fr et E3
      (Event.tagE n tt2 (convAttr plang lt fr et n E3 tt a) p2) = true := by
  rw [stableEv]
  rw [Bool.and_eq_true, Bool.and_eq_true, Bool.and_eq_true, Bool.and_eq_true,
    Bool.and_eq_true]
  refine ⟨⟨⟨⟨⟨?_, ?_⟩, ?_⟩, ?_⟩, ?_⟩, ?_⟩
  · exact attrWF_convAttr plang lt fr et n E3 tt a hwf
  · rw [show htmlLangOK plang
        (Event.tagE n tt2 (convAttr plang lt fr et n E3 tt a) p2)
      = (if n == "html" && tt2 == TagType.tbegin then
          lookupT (convAttr plang lt fr et n E3 tt a) "lang" == some plang &&
          lookupT (convAttr plang lt fr et n E3 tt a) "xml:lang" == some plang
        else true) from rfl]
    by_cases hcg : (n == "html" && tt2 == TagType.tbegin) = true
    · rw [if_pos hcg]
      rw [hlg] at hcg
      rw [Bool.and_eq_true] at hcg
      have hn : n = "html" := by simpa using hcg.1
      have htb : (tt == TagType.tbegin) = true := hcg.2
      subst hn
      have hpre : preAttr plang lt fr et "html" E3 tt a
          = langAttr plang lt fr et "html" E3 tt a := by
        rw [preAttr,
          if_neg (by rw [show ("html" == "img") = false from by decide]; simp)]
      have hg1 : (("html" == "html") && (tt == TagType.tbegin)) = true := by
        rw [htb]
        simp
      have h1 : lookupT (convAttr plang lt fr et "html" E3 tt a) "lang"
          = some plang := by
        rw [convAttr, roleAug_lookup_ne _ _ _ _ _ (by decide), hpre, langAttr,
          langInject, if_pos hg1, lookupT_setT_ne _ _ _ _ (by decide),
          lookupT_setT_self]
      have h2 : lookupT (convAttr plang lt fr et "html" E3 tt a) "xml:lang"
          = some plang := by
        rw [convAttr, roleAug_lookup_ne _ _ _ _ _ (by decide), hpre, langAttr,
          langInject, if_pos hg1, lookupT_setT_self]
      rw [h1, h2]
      simp
    · rw [if_neg hcg]
  · rw [show roleOK E3
        (Event.tagE n tt2 (convAttr plang lt fr et n E3 tt a) p2)
      = (if E3 && (tt2 == TagType.tbegin || tt2 == TagType.tsingle) &&
            hasT (convAttr plang lt fr et n E3 tt a) "epub:type" then
          rolesStable n (convAttr plang lt fr et n E3 tt a)
        else true) from rfl]
    by_cases hg2 : (E3 && (tt2 == TagType.tbegin || tt2 == TagType.tsingle) &&
        hasT (convAttr plang lt fr et n E3 tt a) "epub:type") = true
    · rw [if_pos hg2]
      have hA_ety : hasT (convAttr plang lt fr et n E3 tt a) "epub:type"
          = hasT (preAttr plang lt fr et n E3 tt a) "epub:type" := by
        rw [hasT, hasT, convAttr, roleAug_lookup_ne _ _ _ _ _ (by decide)]
      rw [horb, hA_ety] at hg2
      have hwfr3 : wfVal (getAD (preAttr plang lt fr et n E3 tt a) "role" "")
          = true := by
        rw [getAD, preAttr_lookup_vals plang lt fr et n E3 tt a "role" hwf
          (by decide) (by decide) (by decide) (by decide), ← getAD]
        exact hwfr
      rw [show convAttr plang lt fr et n E3 tt a
          = roleAug E3 n tt (preAttr plang lt fr et n E3 tt a) from rfl]
      exact roleAug_post E3 n tt (preAttr plang lt fr et n E3 tt a) hwfr3 hg2
    · rw [if_neg hg2]
  · rw [show lmOK E3 lt fr et
        (Event.tagE n tt2 (convAttr plang lt fr et n E3 tt a) p2)
      = (if E3 && lt == "id" &&
            (tt2 == TagType.tsingle || tt2 == TagType.tbegin) then
          match lookupT (convAttr plang lt fr et n E3 tt a) "id" with
          | some idv =>
            if idv == fr then
              (parse_attribute (some (getAD (convAttr plang lt fr et n E3 tt a)
                "epub:type" ""))).contains et
            else true
          | none => true
        else true) from rfl]
    by_cases hg : (E3 && lt == "id" &&
        (tt2 == TagType.tsingle || tt2 == TagType.tbegin)) = true
    · rw [if_pos hg]
      rw [show (E3 && lt == "id" &&
          (tt2 == TagType.tsingle || tt2 == TagType.tbegin))
        = (E3 && lt == "id" &&
          (tt == TagType.tsingle || tt == TagType.tbegin)) from by rw [hor]] at hg
      have hidA : lookupT (convAttr plang lt fr et n E3 tt a) "id"
          = lookupT a "id" :=
        convAttr_lookup_other plang lt fr et n E3 tt a "id" hwf (by decide)
          (by decide) (by decide) (by decide) (by decide)
      rw [hidA]
      cases hid : lookupT a "id" with
      | none => rfl
      | some idv =>
        dsimp only
        by_cases hif : (idv == fr) = true
        · rw [if_pos hif]
          have hfr : idv = fr := by simpa using hif
          rw [hfr] at hid
          have hetyA : getAD (convAttr plang lt fr et n E3 tt a) "epub:type" ""
              = getAD (lmInject E3 lt fr et tt a) "epub:type" "" := by
            rw [getAD, getAD, convAttr_lookup_ety plang lt fr et n E3 tt a hwf]
          rw [hetyA]
          apply lmInject_ety_contains E3 lt fr et tt a hg hid hwfe
          rcases hlmH with hlf | htok
          · exfalso
            rw [Bool.and_eq_true, Bool.and_eq_true] at hg
            rw [hg.1.2] at hlf
            exact absurd hlf (by simp)
          · exact htok
        · rw [Bool.not_eq_true] at hif
          rw [if_neg (by simp [hif])]
    · rw [if_neg hg]
  · rw [show imgAltOK
        (Event.tagE n tt2 (convAttr plang lt fr et n E3 tt a) p2)
      = (!(n == "img" && (tt2 == TagType.tsingle || tt2 == TagType.tbegin)) ||
          hasT (convAttr plang lt fr et n E3 tt a) "alt") from rfl]
    rw [hor]
    by_cases hi : (n == "img" &&
        (tt == TagType.tsingle || tt == TagType.tbegin)) = true
    · have hha : hasT (convAttr plang lt fr et n E3 tt a) "alt" = true := by
        rw [hasT, convAttr, roleAug_lookup_ne _ _ _ _ _ (by decide), preAttr,
          if_pos hi, lookupT_setT_self]
        rfl
      rw [hha, hi]
      rfl
    · rw [Bool.not_eq_true] at hi
      rw [hi]
      rfl
  · rw [show isHeadTitleSingle
        (Event.tagE n tt2 (convAttr plang lt fr et n E3 tt a) p2)
      = (n == "title" && tt2 == TagType.tsingle && subStrB "head" p2)
      from rfl, hts]
    rfl

theorem lmInject_id_of (E3 : Bool) (lt fr et : String) (tt : TagType)
    (a : Attrs) (p : String)
    (hlmok : lmOK E3 lt fr et (Event.tagE n tt a p) = true) :
    lmInject E3 lt fr et tt a = a := by
  rw [show lmOK E3 lt fr et (Event.tagE n tt a p)
      = (if E3 && lt == "id" &&
            (tt == TagType.tsingle || tt == TagType.tbegin) then
          match lookupT a "id" with
          | some idv =>
            if idv == fr then
              (parse_attribute (some (getAD a "epub:type" ""))).contains et
            else true
          | none => true
        else true) from rfl] at hlmok
  unfold lmInject
  by_cases hg : (E3 && lt == "id" &&
      (tt == TagType.tsingle || tt == TagType.tbegin)) = true
  · rw [if_pos hg]
    rw [if_pos hg] at hlmok
    cases hid : lookupT a "id" with
    | none => rfl
    | some idv =>
      rw [hid] at hlmok
      dsimp only at hlmok ⊢
      by_cases hif : (idv == fr) = true
      · rw [if_pos hif] at hlmok ⊢
        rw [hlmok]
        rfl
      · rw [Bool.not_eq_true] at hif
        rw [if_neg (by simp [hif])]
  · rw [if_neg hg]

theorem convAttr_id (plang lt fr et n : String) (E3 : Bool) (tt : TagType)
    (a : Attrs) (p : String)
    (hs : stableEv plang lt fr et E3 (Event.tagE n tt a p) = true) :
    convAttr plang lt fr et n E3 tt a = a := by
  rw [stableEv] at hs
  rw [Bool.and_eq_true, Bool.and_eq_true, Bool.and_eq_true, Bool.and_eq_true,
    Bool.and_eq_true] at hs
  obtain ⟨⟨⟨⟨⟨hwf0, hlang⟩, hrole⟩, hlmok⟩, halt⟩, _⟩ := hs
  have hwf : attrWF a = true := hwf0
  have h1 : stripAttrNames a = a := rebuild_id a hwf
  have h2 : lmInject E3 lt fr et tt a = a := lmInject_id_of E3 lt fr et tt a p hlmok
  have h3 : langInject plang n tt a = a := by
    apply langInject_id
    intro hc
    rw [show htmlLangOK plang (Event.tagE n tt a p)
        = (if n == "html" && tt == TagType.tbegin then
            lookupT a "lang" == some plang &&
            lookupT a "xml:lang" == some plang
          else true) from rfl, if_pos hc, Bool.and_eq_true] at hlang
    exact ⟨by simpa using hlang.1, by simpa using hlang.2⟩
  have h4 : (if n == "img" && (tt == TagType.tsingle || tt == TagType.tbegin)
      then setT a "alt" (getAD a "alt" "") else a) = a := by
    by_cases hi : (n == "img" &&
        (tt == TagType.tsingle || tt == TagType.tbegin)) = true
    · rw [if_pos hi]
      apply setT_get_id
      rw [show imgAltOK (Event.tagE n tt a p)
          = (!(n == "img" && (tt == TagType.tsingle || tt == TagType.tbegin)) ||
            hasT a "alt") from rfl, hi] at halt
      simpa using halt
    · rw [if_neg hi]
  have h5 : roleAug E3 n tt a = a := by
    apply roleAug_id
    intro hg
    rw [show roleOK E3 (Event.tagE n tt a p)
        = (if E3 && (tt == TagType.tbegin || tt == TagType.tsingle) &&
            hasT a "epub:type" then rolesStable n a else true) from rfl,
      if_pos hg] at hrole
    exact hrole
  rw [convAttr, preAttr, langAttr, h1, h2, h3, h4, h5]

theorem conv_go_text (mid bookpath plang : String)
    (tm : List (String × String)) (lt fr et : String) (E3 lf : Bool)
    (mt : Option String) (c : Nat) (t p : String) (rest : List Event) :
    conv_go mid bookpath plang tm lt fr et E3 lf mt c
        (Event.textE t p :: rest)
      = (pushText t p ++
          (conv_go mid bookpath plang tm lt fr et E3 lf
            (if subStrB "head" p && endsWithB p "title" && pyStrip t != ""
             then some t else mt) c rest).1,
         (conv_go mid bookpath plang tm lt fr et E3 lf
            (if subStrB "head" p && endsWithB p "title" && pyStrip t != ""
             then some t else mt) c rest).2) := rfl

theorem conv_go_tag (mid bookpath plang : String)
    (tm : List (String × String)) (lt fr et : String) (E3 : Bool)
    (mt : Option String) (c : Nat) (n : String) (tt : TagType) (a0 : Attrs)
    (p : String) (rest : List Event) :
    conv_go mid bookpath plang tm lt fr et E3 false mt c
        (Event.tagE n tt a0 p :: rest)
      = ((if n == "title" && tt == TagType.tend && subStrB "head" p &&
            mt.isNone
          then pushText (titleD tm bookpath) (p ++ ".title") else []) ++
         (if n == "title" && tt == TagType.tsingle && subStrB "head" p then
            Event.tagE n TagType.tbegin
                (convAttr plang lt fr et n E3 tt a0) p ::
              (pushText (titleD tm bookpath) (p ++ ".title") ++
                [Event.tagE n TagType.tend [] p])
          else
            [Event.tagE n tt
              (xmlheaderFix false tt (convAttr plang lt fr et n E3 tt a0)) p]) ++
         (conv_go mid bookpath plang tm lt fr et E3 false mt
            (if n == "img" && (tt == TagType.tsingle || tt == TagType.tbegin)
             then c + 1 else c) rest).1,
         (if n == "img" && (tt == TagType.tsingle || tt == TagType.tbegin) then
            [(mid, bookpath,
              (if n == "img" && (tt == TagType.tsingle || tt == TagType.tbegin)
               then c + 1 else c),
              getAD (preAttr plang lt fr et n E3 tt a0) "src" "",
              getAD (langAttr plang lt fr et n E3 tt a0) "alt" "")]
          else []) ++
         (conv_go mid bookpath plang tm lt fr et E3 false mt
            (if n == "img" && (tt == TagType.tsingle || tt == TagType.tbegin)
             then c + 1 else c) rest).2) := rfl

theorem tagsOf_append (a b : List Event) :
    tagsOf (a ++ b) = tagsOf a ++ tagsOf b := by
  simp [tagsOf, List.filter_append]

theorem tagsOf_pushText (t p : String) : tagsOf (pushText t p) = [] := by
  rw [pushText]
  split
  · rfl
  · rfl

theorem tagsOf_cons_tag (n : String) (tt : TagType) (a : Attrs) (p : String)
    (l : List Event) :
    tagsOf (Event.tagE n tt a p :: l) = Event.tagE n tt a p :: tagsOf l := by
  simp [tagsOf, List.filter_cons, isTagEv]

theorem tagsOf_cons_text (t p : String) (l : List Event) :
    tagsOf (Event.textE t p :: l) = tagsOf l := by
  simp [tagsOf, List.filter_cons, isTagEv]

theorem tagsOf_nil : tagsOf ([] : List Event) = [] := rfl

theorem stableEv_text (plang lt fr et : String) (E3 : Bool) (t p : String)
    (h : (t != "") = true) :
    stableEv plang lt fr et E3 (Event.textE t p) = true := by
  rw [stableEv]
  rw [show evWF (Event.textE t p) = (t != "") from rfl, h]
  rfl

theorem pushText_stable (plang lt fr et : String) (E3 : Bool) (t p : String) :
    (pushText t p).all (stableEv plang lt fr et E3) = true := by
  rw [pushText]
  split
  next hc =>
    rfl
  next hc =>
    rw [List.all_cons]
    rw [stableEv_text plang lt fr et E3 t p (by
      rw [Bool.not_eq_true] at hc
      simpa using hc)]
    rfl

theorem stableEv_title_end (plang lt fr et p : String) (E3 : Bool) :
    stableEv plang lt fr et E3 (Event.tagE "title" TagType.tend [] p) = true := by
  simp [stableEv, evWF, attrWF, keysND, htmlLangOK, roleOK, lmOK, imgAltOK,
    isHeadTitleSingle]

theorem conv_go_stab (mid bookpath plang : String)
    (tm : List (String × String)) (lt fr et : String) (E3 : Bool)
    (hlm : (lt == "id") = false ∨ isTok et = true)
    (evs : List Event) :
    ∀ (mt : Option String) (c : Nat),
    evs.all (fun e => evWF e && attrValsWF e) = true →
    (conv_go mid bookpath plang tm lt fr et E3 false mt c evs).1.all
      (stableEv plang lt fr et E3) = true := by
  induction evs with
  | nil => intro mt c _; rfl
  | cons e rest ih =>
    intro mt c hall
    rw [List.all_cons, Bool.and_eq_true] at hall
    obtain ⟨he, hrest⟩ := hall
    rw [Bool.and_eq_true] at he
    obtain ⟨hwf0, hvals⟩ := he
    cases e with
    | textE t p =>
      rw [conv_go_text, List.all_append, pushText_stable, ih _ c hrest]
      rfl
    | tagE n tt a0 p =>
      rw [conv_go_tag, List.all_append, List.all_append,
        ih mt (if n == "img" && (tt == TagType.tsingle || tt == TagType.tbegin)
          then c + 1 else c) hrest]
      have hpre : (if n == "title" && tt == TagType.tend && subStrB "head" p &&
          mt.isNone then pushText (titleD tm bookpath) (p ++ ".title")
          else []).all (stableEv plang lt fr et E3) = true := by
        split
        · exact pushText_stable plang lt fr et E3 _ _
        · rfl
      rw [hpre]
      have hwf : attrWF a0 = true := hwf0
      obtain ⟨hwfe, hwfr⟩ := attrValsWF_parts n tt a0 p hvals
      have hemit : (if n == "title" && tt == TagType.tsingle &&
            subStrB "head" p then
          Event.tagE n TagType.tbegin (convAttr plang lt fr et n E3 tt a0) p ::
            (pushText (titleD tm bookpath) (p ++ ".title") ++
              [Event.tagE n TagType.tend [] p])
        else
          [Event.tagE n tt
            (xmlheaderFix false tt (convAttr plang lt fr et n E3 tt a0)) p]).all
          (stableEv plang lt fr et E3) = true := by
        by_cases h1 : (n == "title" && tt == TagType.tsingle &&
            subStrB "head" p) = true
        · rw [if_pos h1]
          rw [Bool.and_eq_true, Bool.and_eq_true] at h1
          have hn : n = "title" := by simpa using h1.1.1
          have hts : tt = TagType.tsingle := by
            have := h1.1.2
            simpa using this
          subst hn
          subst hts
          rw [List.all_cons, List.all_append, List.all_cons]
          rw [convAttr_stable plang lt fr et "title" p E3 TagType.tsingle
            TagType.tbegin a0 hwf hwfe hwfr hlm (by decide) (by decide)
            (by decide) (by
              rw [show (TagType.tbegin == TagType.tsingle) = false from
                by decide]
              simp)]
          rw [pushText_stable]
          rw [List.all_nil, stableEv_title_end]
          rfl
        · rw [if_neg (by simp [h1])]
          rw [Bool.not_eq_true] at h1
          rw [xmlheaderFix_off]
          rw [List.all_cons, List.all_nil]
          rw [convAttr_stable plang lt fr et n p E3 tt tt a0 hwf hwfe hwfr hlm
            rfl rfl rfl h1]
          rfl
      rw [hemit]
      rfl

theorem conv_go_tags_id (mid bookpath plang : String)
    (tm : List (String × String)) (lt fr et : String) (E3 : Bool)
    (evs : List Event) :
    ∀ (mt : Option String) (c : Nat),
    evs.all (stableEv plang lt fr et E3) = true →
    tagsOf (conv_go mid bookpath plang tm lt fr et E3 false mt c evs).1
      = tagsOf evs := by
  induction evs with
  | nil => intro mt c _; rfl
  | cons e rest ih =>
    intro mt c hall
    rw [List.all_cons, Bool.and_eq_true] at hall
    obtain ⟨he, hrest⟩ := hall
    cases e with
    | textE t p =>
      rw [conv_go_text, tagsOf_append, tagsOf_pushText, tagsOf_cons_text,
        ih _ c hrest]
      rfl
    | tagE n tt a0 p =>
      rw [conv_go_tag, tagsOf_append, tagsOf_append]
      have hpre : tagsOf (if n == "title" && tt == TagType.tend &&
          subStrB "head" p && mt.isNone then
          pushText (titleD tm bookpath) (p ++ ".title") else []) = [] := by
        split
        · exact tagsOf_pushText _ _
        · rfl
      rw [hpre]
      have hsingle : (n == "title" && tt == TagType.tsingle &&
          subStrB "head" p) = false := by
        rw [stableEv, Bool.and_eq_true] at he
        have h6 := he.2
        rw [show isHeadTitleSingle (Event.tagE n tt a0 p)
            = (n == "title" && tt == TagType.tsingle && subStrB "head" p)
          from rfl] at h6
        cases hc : (n == "title" && tt == TagType.tsingle && subStrB "head" p)
        · rfl
        · rw [hc] at h6
          exact absurd h6 (by decide)
      rw [stableEv] at he
      rw [if_neg (by simp [hsingle])]
      rw [xmlheaderFix_off,
        convAttr_id plang lt fr et n E3 tt a0 p (by rw [stableEv]; exact he)]
      rw [show tagsOf [Event.tagE n tt a0 p] = [Event.tagE n tt a0 p] from by
        rw [tagsOf_cons_tag]
        rfl]
      rw [ih _ _ hrest, tagsOf_cons_tag]
      rfl

theorem conv_idem_parts (mid bookpath plang : String)
    (tm : List (String × String)) (lt fr et : String) (E3 : Bool)
    (hlm : (lt == "id") = false ∨ isTok et = true) (evs : List Event)
    (hall : evs.all (fun e => evWF e && attrValsWF e) = true) :
    tagsOf (conv_go mid bookpath plang tm lt fr et E3 false none 0
        (conv_go mid bookpath plang tm lt fr et E3 false none 0 evs).1).1
      = tagsOf (conv_go mid bookpath plang tm lt fr et E3 false none 0 evs).1 ∧
    ordsOf (conv_go mid bookpath plang tm lt fr et E3 false none 0
        (conv_go mid bookpath plang tm lt fr et E3 false none 0 evs).1).2
      = ordsOf (conv_go mid bookpath plang tm lt fr et E3 false none 0 evs).2 := by
  constructor
  · exact conv_go_tags_id mid bookpath plang tm lt fr et E3 _ none 0
      (conv_go_stab mid bookpath plang tm lt fr et E3 hlm evs none 0 hall)
  · have h1 := conv_go_img_inv mid bookpath plang tm lt fr et E3 false evs none 0
    have h2 := conv_go_img_inv mid bookpath plang tm lt fr et E3 false
      (conv_go mid bookpath plang tm lt fr et E3 false none 0 evs).1 none 0
    rw [h2.1, h1.1, h1.2.1]

/-- C7 counterexample: with the landmark semantic type " chapter" (a stray
leading space, as a nav label can produce), the second run of the rewriter
on its own output appends the type again: the epub:type value goes from
" chapter" (one "chapter" token) to "chapter  chapter" (two), adding a
semantic-type value that was already present in the space-delimited set. -/
theorem C7_idempotence_counterexample :
    (convert_xhtml "m" "doc" "en" [] idemC7map true false idemC7evs).1
      = [Event.tagE "div" TagType.tbegin
          [("id", "s1"), ("epub:type", " chapter"), ("role", "doc-chapter")]
          "html.body"] ∧
    (convert_xhtml "m" "doc" "en" [] idemC7map true false
        (convert_xhtml "m" "doc" "en" [] idemC7map true false idemC7evs).1).1
      = [Event.tagE "div" TagType.tbegin
          [("id", "s1"), ("epub:type", "chapter  chapter"),
           ("role", "doc-chapter")] "html.body"] ∧
    (parse_attribute (some " chapter")).count "chapter" = 1 ∧
    (parse_attribute (some "chapter  chapter")).count "chapter" = 2 :=
  ⟨by decide, by decide, by decide, by decide⟩

/-- C7 (amended): on documents whose attribute dicts are well formed (trimmed
names, distinct keys, non-empty text nodes) and whose epub:type and role
values parse into whitespace-free tokens, and when this document's landmark
semantic type (if fragment-kinded) is itself a whitespace-free token, a
second run of the Document Rewriter on its own output re-emits every tag
unchanged — so no language attribute, semantic type or role value is added
or duplicated — and derives the identical sequence of image ordinals. -/
theorem C7_idempotence_amended (mid bookpath plang : String)
    (tm : List (String × String))
    (etypemap : List (String × (String × String × String)))
    (E3 : Bool) (evs : List Event)
    (hlm : lmEtypeOK etypemap bookpath = true)
    (hall : evs.all (fun e => evWF e && attrValsWF e) = true) :
    tagsOf (convert_xhtml mid bookpath plang tm etypemap E3 false
        (convert_xhtml mid bookpath plang tm etypemap E3 false evs).1).1
      = tagsOf (convert_xhtml mid bookpath plang tm etypemap E3 false evs).1 ∧
    ordsOf (convert_xhtml mid bookpath plang tm etypemap E3 false
        (convert_xhtml mid bookpath plang tm etypemap E3 false evs).1).2
      = ordsOf (convert_xhtml mid bookpath plang tm etypemap E3 false evs).2 := by
  have hlm2 : ((((lookupT etypemap bookpath).getD ("", "", "")).1 == "id")
        = false) ∨
      isTok (((lookupT etypemap bookpath).getD ("", "", "")).2.2) = true := by
    rw [lmEtypeOK] at hlm
    cases hc : lookupT etypemap bookpath with
    | none =>
      left
      decide
    | some lrec =>
      rw [hc] at hlm
      rw [Bool.or_eq_true] at hlm
      rcases hlm with hb | ht
      · left
        cases hq : (lrec.1 == "id")
        · exact hq
        · rw [show (lrec.1 != "id") = !(lrec.1 == "id") from rfl, hq] at hb
          exact absurd hb (by decide)
      · right
        exact ht
  have hcx : ∀ X : List Event,
      convert_xhtml mid bookpath plang tm etypemap E3 false X
        = conv_go mid bookpath plang tm
            ((lookupT etypemap bookpath).getD ("", "", "")).1
            ((lookupT etypemap bookpath).getD ("", "", "")).2.1
            ((lookupT etypemap bookpath).getD ("", "", "")).2.2 E3 false
            none 0 X := fun X => rfl
  rw [hcx]
  exact conv_idem_parts mid bookpath plang tm _ _ _ E3 hlm2 evs hall

/-- C7 witness: the amended idempotence theorem at a concrete document and a
well-formed landmark map. -/
theorem C7_idempotence_amended_witness :
    tagsOf (convert_xhtml "m" "doc" "en" [] idemC7good true false
        (convert_xhtml "m" "doc" "en" [] idemC7good true false idemC7evs).1).1
      = tagsOf (convert_xhtml "m" "doc" "en" [] idemC7good true false
          idemC7evs).1 ∧
    ordsOf (convert_xhtml "m" "doc" "en" [] idemC7good true false
        (convert_xhtml "m" "doc" "en" [] idemC7good true false idemC7evs).1).2
      = ordsOf (convert_xhtml "m" "doc" "en" [] idemC7good true false
          idemC7evs).2 :=
  C7_idempotence_amended "m" "doc" "en" [] idemC7good true idemC7evs
    (by decide) (by decide)
